import Mathlib

/-!
Verification of the core game engine of the bevy-tetris repository.

The definitions below are a shallow embedding of the Rust sources
(src/game.rs, src/game/blocks.rs, src/game/rotate.rs, src/game/input.rs,
src/game/utils.rs).  Conventions of the embedding:

* Rust `usize`/`u32` values are modelled as `Nat`.  All counters in the code
  (the drop timer, the input repeat timers, the id generator) are either
  restarted long before 2^32 or only grow by 5 per locked block, so wrap
  around does not affect any of the verified properties; we therefore use
  unbounded `Nat` arithmetic.
* Intermediate `i32` arithmetic in the rotation algorithm is modelled as
  `Int`, with the `as usize` casts modelled by `Int.toNat`.
* The board array `[[Option<Point>; BOARD_WIDTH]; BOARD_HEIGHT]` is a list
  of rows; indexing that would panic in Rust is surfaced through the
  `Option`-returning `boardGet` and the `Err.oob` error.
* `HashMap<Id, Position>` inside a block is an association list keyed by the
  point ids (the code only ever builds maps with pairwise distinct keys);
  the map of locked points owned by the game is a function
  `Nat -> Option Position` whose updates model `insert`/`remove`.
* Code that can panic (`assert!`, indexing, `unwrap`) is embedded with
  `Except Err`, one error constructor per panic class.
* The only source of nondeterminism, the unseeded random choice of the next
  piece (`get_random_block`), is an explicit parameter of `tick` and of
  `Game.new`, so every theorem quantifies over arbitrary spawn sequences.
-/

/-- BOARD_WIDTH from src/game.rs. -/
def BOARD_WIDTH : Nat := 10

/-- BOARD_HEIGHT from src/game.rs. -/
def BOARD_HEIGHT : Nat := 24

/-- WAIT_DURATION from src/game.rs. -/
def WAIT_DURATION : Nat := 30

/-- REPEAT_DURATION from src/game.rs. -/
def REPEAT_DURATION : Nat := 5

/-- Position type: a pair (column x, row y), from src/game.rs. -/
abbrev Position := Nat × Nat

/-- add_positions from src/game.rs. -/
def add_positions (a b : Position) : Position := (a.1 + b.1, a.2 + b.2)

/-- The seven piece shapes, src/game/blocks.rs. -/
inductive BlockType where
  | I | J | L | O | S | T | Z
deriving DecidableEq

/-- The static shape table BLOCKS of src/game/blocks.rs (colors are a
rendering concern and are not part of the core model). -/
def get_block_points : BlockType → List Position
  | .I => [(0, 0), (0, 1), (0, 2), (0, 3)]
  | .J => [(0, 0), (0, 1), (1, 1), (2, 1)]
  | .L => [(0, 1), (1, 1), (2, 1), (2, 0)]
  | .O => [(0, 0), (1, 0), (1, 1), (0, 1)]
  | .S => [(0, 1), (1, 1), (1, 0), (2, 0)]
  | .T => [(0, 1), (1, 1), (1, 0), (2, 1)]
  | .Z => [(0, 0), (1, 0), (1, 1), (2, 1)]

/-- Point from src/game.rs; ids are `NonZeroU32`, modelled as `Nat`. -/
structure Point where
  id : Nat
  origin_block_type : BlockType
deriving DecidableEq

/-- Lookup in an association list keyed by point id; models
`HashMap::get` for the maps built by the code, whose keys are pairwise
distinct. -/
def lookupPos : List (Nat × Position) → Nat → Option Position
  | [], _ => none
  | (i, q) :: rest, j => if j = i then some q else lookupPos rest j

/-- Block from src/game.rs: the active piece.  `points_pos` is the
id-to-local-position map (association list in insertion order). -/
structure Block where
  id : Nat
  block_type : BlockType
  points : List Point
  points_pos : List (Nat × Position)
deriving DecidableEq

/-- The values view of a points_pos map, as used by
`points_pos.values()` in the code. -/
def ppValues (pp : List (Nat × Position)) : List Position := pp.map (·.2)

/-- Block::width: maximum local x among the point positions
(src/game.rs).  The code unwraps a maximum over a nonempty iterator; real
blocks always have four points, and on the empty map we return 0. -/
def Block.width (b : Block) : Nat :=
  ((ppValues b.points_pos).map (·.1)).foldl max 0

/-- Block::height: maximum local y among the point positions (src/game.rs). -/
def Block.height (b : Block) : Nat :=
  ((ppValues b.points_pos).map (·.2)).foldl max 0

/-- Block::get_point_position from src/game.rs. -/
def Block.get_point_position (b : Block) (i : Nat) : Option Position :=
  lookupPos b.points_pos i

/-- Helper building the points and the points_pos map of a new block:
the loop body of Block::new in src/game.rs.  `g` is the state of the id
generator; ids are drawn consecutively from it. -/
def mkPoints (bt : BlockType) : Nat → List Position → List Point × List (Nat × Position) × Nat
  | g, [] => ([], [], g)
  | g, q :: rest =>
    let r := mkPoints bt (g + 1) rest
    (⟨g, bt⟩ :: r.1, (g, q) :: r.2.1, r.2.2)

/-- Block::new from src/game.rs, together with the two id-generator calls
around it: the block id is drawn first, then one id per point.  Returns the
block and the new generator state. -/
def blockNew (bt : BlockType) (g0 : Nat) : Block × Nat :=
  let r := mkPoints bt (g0 + 1) (get_block_points bt)
  ({ id := g0, block_type := bt, points := r.1, points_pos := r.2.1 }, r.2.2)

/-- GameRules::drop_speed from src/game.rs. -/
def drop_speed : Nat := 10

/-- GameRules::fast_drop_speed from src/game.rs. -/
def fast_drop_speed : Nat := max (drop_speed / 2) 1

/-- Timer from src/game/utils.rs. -/
structure Timer where
  t : Nat
deriving DecidableEq

/-- Timer::tick. -/
def timerTick (tm : Timer) : Timer := ⟨tm.t + 1⟩

/-- Timer::restart. -/
def timerRestart (_tm : Timer) : Timer := ⟨0⟩

/-- Timer::has_elapsed. -/
def hasElapsed (tm : Timer) (d : Nat) : Bool := d ≤ tm.t

/-- Timer::tick_and_restart_if_elapsed: increment, then if elapsed restart
and report true. -/
def tickAndRestartIfElapsed (tm : Timer) (d : Nat) : Bool × Timer :=
  let tm1 := timerTick tm
  if hasElapsed tm1 d then (true, timerRestart tm1) else (false, tm1)

/-- RepeatedActionState from src/game/input.rs (`rep` is the Repeat
state; `repeat` is a Lean keyword). -/
inductive RAState where
  | inactive | wait | rep
deriving DecidableEq

/-- RepeatedAction from src/game/input.rs. -/
structure RepeatedAction where
  state : RAState
  timer : Timer
  active : Bool
  wait_duration : Nat
  repeat_duration : Nat
deriving DecidableEq

/-- RepeatedAction::new. -/
def raNew (w r : Nat) : RepeatedAction :=
  { state := .inactive, timer := ⟨0⟩, active := false,
    wait_duration := w, repeat_duration := r }

/-- RepeatedAction::tick from src/game/input.rs. -/
def raTick (a : RepeatedAction) (held : Bool) : RepeatedAction :=
  if !held then { a with state := .inactive, active := false }
  else
    match a.state with
    | .inactive =>
      { a with timer := timerRestart a.timer, state := .wait, active := true }
    | .wait =>
      let r := tickAndRestartIfElapsed a.timer a.wait_duration
      if r.1 then { a with timer := r.2, state := .rep, active := true }
      else { a with timer := r.2, state := .wait, active := false }
    | .rep =>
      let r := tickAndRestartIfElapsed a.timer a.repeat_duration
      { a with timer := r.2, state := .rep, active := r.1 }

/-- A raw per-frame input snapshot: the `Input` trait of
src/game/input.rs, read once per tick. -/
structure RawInput where
  move_left : Bool
  move_right : Bool
  rotate : Bool
  fast_drop : Bool
  instant_drop : Bool
deriving DecidableEq

/-- SmartInput from src/game/input.rs. -/
structure SmartInput where
  move_left : RepeatedAction
  move_right : RepeatedAction
  rotate : RepeatedAction
  fast_drop : Bool
  instant_drop : Bool
deriving DecidableEq

/-- SmartInput::new. -/
def smartInputNew : SmartInput :=
  { move_left := raNew WAIT_DURATION REPEAT_DURATION,
    move_right := raNew WAIT_DURATION REPEAT_DURATION,
    rotate := raNew WAIT_DURATION REPEAT_DURATION,
    fast_drop := false, instant_drop := false }

/-- SmartInput::tick. -/
def smartInputTick (si : SmartInput) (raw : RawInput) : SmartInput :=
  { move_left := raTick si.move_left raw.move_left,
    move_right := raTick si.move_right raw.move_right,
    rotate := raTick si.rotate raw.rotate,
    fast_drop := raw.fast_drop,
    instant_drop := raw.instant_drop }

/-- The four debounced signals Game::tick actually reads from its
SmartInput (instant_drop is stored but never read by the tick algorithm). -/
structure Acts where
  move_left : Bool
  move_right : Bool
  rotate : Bool
  fast_drop : Bool
deriving DecidableEq

/-- The debounced view of a SmartInput, through the `Input` impl for
SmartInput in src/game/input.rs. -/
def actsOf (si : SmartInput) : Acts :=
  ⟨si.move_left.active, si.move_right.active, si.rotate.active, si.fast_drop⟩

/-- The board grid: BOARD_HEIGHT rows of BOARD_WIDTH cells. -/
abbrev Board := List (List (Option Point))

/-- Reading the cell board[y][x]; `none` models the out-of-bounds panic,
`some c` the cell content. -/
def boardGet (b : Board) (y x : Nat) : Option (Option Point) :=
  match b[y]? with
  | some row => row[x]?
  | none => none

/-- Writing board[y][x] (no-op out of bounds; every write performed by the
code is separately proven in bounds). -/
def setCell (b : Board) (y x : Nat) (v : Option Point) : Board :=
  match b[y]? with
  | some row => b.set y (row.set x v)
  | none => b

/-- The map of locked point positions, `points_pos: HashMap<Id, Position>`
of Game in src/game.rs, as a function. -/
abbrev PosMap := Nat → Option Position

/-- HashMap::insert on the locked-points map. -/
def pmInsert (m : PosMap) (i : Nat) (q : Position) : PosMap :=
  fun j => if j = i then some q else m j

/-- HashMap::remove on the locked-points map. -/
def pmRemove (m : PosMap) (i : Nat) : PosMap :=
  fun j => if j = i then none else m j

/-- The panic classes of the embedded code: out-of-bounds indexing, the
assert in lock_active_block_to_board, and `unwrap` of a missing value. -/
inductive Err where
  | oob | assertFail | unwrapFail
deriving DecidableEq

/-- TickChange from src/game.rs. -/
inductive TickChange where
  | blockLocked
  | newBlock
  | pointRemoved (id : Nat)
deriving DecidableEq

/-- Game::is_block_collides from src/game.rs: true if any point of the
block, placed at `bp`, lands on an occupied cell.  Out-of-bounds access is
the indexing panic. -/
def isBlockCollides (b : Board) : List Position → Position → Except Err Bool
  | [], _ => .ok false
  | q :: rest, bp =>
    match boardGet b (bp.2 + q.2) (bp.1 + q.1) with
    | none => .error .oob
    | some (some _) => .ok true
    | some none => isBlockCollides b rest bp

/-- The 90 degree rotation of one local position about (cx, cy):
`(-(y - cy) + cx, (x - cx) + cy)` with i32 arithmetic, src/game/rotate.rs. -/
def rotFormula (cx cy : Int) (q : Position) : Int × Int :=
  (-((q.2 : Int) - cy) + cx, ((q.1 : Int) - cx) + cy)

/-- The point-rotation loop of rotate_block: for each point of the block,
look its local position up (unwrap) and rotate it. -/
def rotPointsE (pp : List (Nat × Position)) (cx cy : Int) :
    List Point → Except Err (List (Int × Int))
  | [] => .ok []
  | p :: rest =>
    match lookupPos pp p.id with
    | none => .error .unwrapFail
    | some q =>
      match rotPointsE pp cx cy rest with
      | .error e => .error e
      | .ok l => .ok (rotFormula cx cy q :: l)

/-- rotate_block from src/game/rotate.rs.  `fits` is the caller-supplied
collision predicate (true when the placement is acceptable); `.ok none`
is the "no rotation" result. -/
def rotate_block (blk : Block) (bp : Position)
    (fits : List Position → Position → Except Err Bool) :
    Except Err (Option (List (Nat × Position) × Position)) :=
  let w := blk.width
  let h := blk.height
  let cx : Int := ((w / 2 : Nat) : Int)
  let cy : Int := ((h / 2 : Nat) : Int)
  match rotPointsE blk.points_pos cx cy blk.points with
  | .error e => .error e
  | .ok rps =>
    match rps with
    | [] => .error .unwrapFail
    | r0 :: rtail =>
      let mnx := (rtail.map (·.1)).foldl min r0.1
      let mny := (rtail.map (·.2)).foldl min r0.2
      let candx : Int := (bp.1 : Int) + mnx
      let candy : Int := (bp.2 : Int) + mny
      if candx < 0 ∨ BOARD_WIDTH ≤ candx.toNat + h
          ∨ candy < 0 ∨ BOARD_HEIGHT ≤ candy.toNat + w then
        .ok none
      else
        let norm : List Position :=
          rps.map (fun r => ((r.1 - mnx).toNat, (r.2 - mny).toNat))
        let npos : Position := (candx.toNat, candy.toNat)
        match fits norm npos with
        | .error e => .error e
        | .ok false => .ok none
        | .ok true =>
          .ok (some ((blk.points.zip norm).map (fun pq => (pq.1.id, pq.2)), npos))

/-- Game from src/game.rs.  `genNext` is the id-generator state (the next
id it will hand out). -/
structure Game where
  genNext : Nat
  input : SmartInput
  board : Board
  points_pos : PosMap
  active_block : Block
  active_block_pos : Position
  drop_timer : Timer

/-- The empty board of Game::new. -/
def emptyBoard : Board :=
  List.replicate BOARD_HEIGHT (List.replicate BOARD_WIDTH none)

/-- Game::new from src/game.rs; the random piece type is the parameter. -/
def Game.new (bt : BlockType) : Game :=
  let r := blockNew bt 1
  { genNext := r.2,
    input := smartInputNew,
    board := emptyBoard,
    points_pos := fun _ => none,
    active_block := r.1,
    active_block_pos := (4, 0),
    drop_timer := ⟨0⟩ }

/-- The loop of Game::lock_active_block_to_board: write each point of the
block into the grid and the map at its absolute position, asserting the
target cell empty.  In-bounds failure is the indexing panic, an occupied
target the assert panic. -/
def lockGo (blk : Block) (bp : Position) :
    Board → PosMap → List Point → Except Err (Board × PosMap)
  | b, m, [] => .ok (b, m)
  | b, m, p :: rest =>
    match blk.get_point_position p.id with
    | none => .error .unwrapFail
    | some lp =>
      let a := add_positions bp lp
      match boardGet b a.2 a.1 with
      | none => .error .oob
      | some (some _) => .error .assertFail
      | some none =>
        lockGo blk bp (setCell b a.2 a.1 (some p)) (pmInsert m p.id (a.1, a.2)) rest

/-- Is row y of the board completely filled (src/game.rs,
find_filled_rows predicate)? -/
def rowFilled (b : Board) (y : Nat) : Bool :=
  match b[y]? with
  | some row => row.all (·.isSome)
  | none => false

/-- Game::find_filled_rows from src/game.rs. -/
def findFilledRows (b : Board) : List Nat :=
  (List.range BOARD_HEIGHT).filter (fun y => rowFilled b y)

/-- The mutable state of the Game::remove_rows loop.  `rem` models the
pointer `i` into the ascending `rows` slice: it holds the rows not yet
consumed, in descending order, so `rows[i-1]` is its head. -/
structure RRState where
  board : Board
  pos : PosMap
  removed : List Point
  rem : List Nat
  drop : Nat

/-- One cell of the row-clearing inner loop of remove_rows: take the cell,
remove its id from the map, record the removed point. -/
def clearCell (y : Nat) (s : RRState) (x : Nat) : RRState :=
  match boardGet s.board y x with
  | some (some p) =>
    { s with board := setCell s.board y x none,
             pos := pmRemove s.pos p.id,
             removed := s.removed ++ [p] }
  | _ => s

/-- The inner `for x` loop clearing a filled row. -/
def clearRow (y : Nat) (s : RRState) : RRState :=
  (List.range BOARD_WIDTH).foldl (clearCell y) s

/-- One cell of the row-shifting inner loop of remove_rows: take the cell
and, if occupied, write it `d` rows further down, updating the map. -/
def moveCell (y d : Nat) (s : RRState) (x : Nat) : RRState :=
  match boardGet s.board y x with
  | some (some p) =>
    { s with board := setCell (setCell s.board y x none) (y + d) x (some p),
             pos := pmInsert s.pos p.id (x, y + d) }
  | _ => s

/-- The inner `for x` loop shifting a non-filled row down by `drop`. -/
def moveRow (y d : Nat) (s : RRState) : RRState :=
  (List.range BOARD_WIDTH).foldl (moveCell y d) s

/-- The body of the `for y in (0..BOARD_HEIGHT).rev()` loop of
remove_rows, at row y. -/
def rowStep (y : Nat) (s : RRState) : RRState :=
  if s.rem.head? = some y then
    let s1 := clearRow y s
    { s1 with rem := s1.rem.tail, drop := s1.drop + 1 }
  else if 0 < s.drop then moveRow y s.drop s
  else s

/-- The descending row loop of remove_rows: `removeRowsGo n` processes
rows n-1 down to 0. -/
def removeRowsGo : Nat → RRState → RRState
  | 0, s => s
  | n + 1, s => removeRowsGo n (rowStep n s)

/-- Game::remove_rows from src/game.rs, on a board and locked-points map,
for the ascending list `rows` of rows to clear. -/
def removeRows (b : Board) (m : PosMap) (rows : List Nat) : RRState :=
  removeRowsGo BOARD_HEIGHT
    { board := b, pos := m, removed := [], rem := rows.reverse, drop := 0 }

/-- The body of Game::tick after the input update, src/game.rs lines
155-218.  It reads only the debounced `Acts`; the SmartInput stored in the
result is attached by `tick`.  `bt` is the piece type the unseeded random
chooser would return for the next spawn. -/
def tickInner (g : Game) (a : Acts) (bt : BlockType) :
    Except Err (Game × List TickChange) :=
  let blk := g.active_block
  let bp0 := g.active_block_pos
  let step1 : Except Err Position :=
    if a.move_left ∧ 0 < bp0.1 then
      match isBlockCollides g.board (ppValues blk.points_pos) (bp0.1 - 1, bp0.2) with
      | .error e => .error e
      | .ok true => .ok bp0
      | .ok false => .ok (bp0.1 - 1, bp0.2)
    else .ok bp0
  match step1 with
  | .error e => .error e
  | .ok bp1 =>
    let step2 : Except Err Position :=
      if a.move_right ∧ bp1.1 + blk.width < BOARD_WIDTH - 1 then
        match isBlockCollides g.board (ppValues blk.points_pos) (bp1.1 + 1, bp1.2) with
        | .error e => .error e
        | .ok true => .ok bp1
        | .ok false => .ok (bp1.1 + 1, bp1.2)
      else .ok bp1
    match step2 with
    | .error e => .error e
    | .ok bp2 =>
      let step3 : Except Err (Block × Position) :=
        if a.rotate then
          match rotate_block blk bp2
              (fun pts p =>
                match isBlockCollides g.board pts p with
                | .error e => .error e
                | .ok c => .ok (!c)) with
          | .error e => .error e
          | .ok none => .ok (blk, bp2)
          | .ok (some r) => .ok ({ blk with points_pos := r.1 }, r.2)
        else .ok (blk, bp2)
      match step3 with
      | .error e => .error e
      | .ok (blk3, bp3) =>
        let speed := if a.fast_drop then fast_drop_speed else drop_speed
        let tr := tickAndRestartIfElapsed g.drop_timer speed
        if tr.1 then
          let lockNow : Except Err Bool :=
            if bp3.2 + blk3.height = BOARD_HEIGHT - 1 then .ok true
            else
              match isBlockCollides g.board (ppValues blk3.points_pos) (bp3.1, bp3.2 + 1) with
              | .error e => .error e
              | .ok c => .ok c
          match lockNow with
          | .error e => .error e
          | .ok true =>
            match lockGo blk3 bp3 g.board g.points_pos blk3.points with
            | .error e => .error e
            | .ok bm =>
              let rows := findFilledRows bm.1
              let rr := removeRows bm.1 bm.2 rows
              let nb := blockNew bt g.genNext
              .ok ({ g with
                      genNext := nb.2,
                      board := rr.board,
                      points_pos := rr.pos,
                      active_block := nb.1,
                      active_block_pos := (4, 0),
                      drop_timer := tr.2 },
                   TickChange.blockLocked ::
                     rr.removed.map (fun p => TickChange.pointRemoved p.id)
                     ++ [TickChange.newBlock])
          | .ok false =>
            .ok ({ g with active_block := blk3,
                          active_block_pos := (bp3.1, bp3.2 + 1),
                          drop_timer := tr.2 }, [])
        else
          .ok ({ g with active_block := blk3,
                        active_block_pos := bp3,
                        drop_timer := tr.2 }, [])

/-- Game::tick from src/game.rs: update the SmartInput from the raw
snapshot, then run the tick body on the debounced actions. -/
def tick (g : Game) (raw : RawInput) (bt : BlockType) :
    Except Err (Game × List TickChange) :=
  let si := smartInputTick g.input raw
  match tickInner g (actsOf si) bt with
  | .error e => .error e
  | .ok r => .ok ({ r.1 with input := si }, r.2)

/-- The reachable game states: Game::new followed by any sequence of
successful ticks, for arbitrary raw inputs and arbitrary random piece
choices. -/
inductive Reachable : Game → Prop where
  | init (bt : BlockType) : Reachable (Game.new bt)
  | step {g g' : Game} {raw : RawInput} {bt : BlockType} {evs : List TickChange} :
      Reachable g → tick g raw bt = .ok (g', evs) → Reachable g'

/-- Iterated ticks from a fresh game, with a constant raw input and a
constant spawn choice; used to exhibit concrete reachable states. -/
def runTicks (raw : RawInput) (bt : BlockType) : Nat → Except Err Game
  | 0 => .ok (Game.new bt)
  | n + 1 =>
    match runTicks raw bt n with
    | .error e => .error e
    | .ok g =>
      match tick g raw bt with
      | .error e => .error e
      | .ok r => .ok r.1

/-- The state of a RepeatedAction (wait 30, repeat 5) after tick number n
of an uninterrupted hold: the action is created Inactive and `raTick _ true`
has been applied n+1 times (ticks are indexed from 0). -/
def raHeld : Nat → RepeatedAction
  | 0 => raTick (raNew WAIT_DURATION REPEAT_DURATION) true
  | n + 1 => raTick (raHeld n) true

/-- The collision predicate Game::tick hands to rotate_block, bound to an
empty board: reports whether the placement is collision-free. -/
def emptyFits (pts : List Position) (p : Position) : Except Err Bool :=
  match isBlockCollides emptyBoard pts p with
  | .error e => .error e
  | .ok c => .ok (!c)

/-- One rotation attempt of an active block on an empty board, applying
the result exactly as the rotation branch of Game::tick does; `none` when
the rotation is rejected or panics. -/
def rotStepEmpty (s : Block × Position) : Option (Block × Position) :=
  match rotate_block s.1 s.2 emptyFits with
  | .ok (some r) => some ({ s.1 with points_pos := r.1 }, r.2)
  | _ => none

/-- Four successive rotation attempts on an empty board. -/
def rotFour (s : Block × Position) : Option (Block × Position) :=
  (((rotStepEmpty s).bind rotStepEmpty).bind rotStepEmpty).bind rotStepEmpty

/-- The O block as first spawned by Game.new .O (ids 2,3,4,5). -/
def oBlk : Block := (blockNew .O 1).1

/-- Everything about a tick result that the external interface exposes:
the event list, the board grid, the locked-points map, the active block
(its ids and local layout) and its anchor.  The SmartInput state, which is
internal, is the only component not projected. -/
def tickObs (r : Except Err (Game × List TickChange)) :
    Except Err (List TickChange × Board × PosMap × Block × Position) :=
  match r with
  | .error e => .error e
  | .ok p => .ok (p.2, p.1.board, p.1.points_pos, p.1.active_block, p.1.active_block_pos)

/-- The rotation algorithm as worded by the specification (section 4.7),
written independently of the embedded source function: bounding box
extents, centre at (w/2, h/2), rotation formula, translation by the
minimum rotated coordinates, the boundary rejection with h against
BOARD_WIDTH and w against BOARD_HEIGHT, normalization, and the collision
predicate on the normalized placement.  Used to state claim C2. -/
def rotate_block_fromSpec (blk : Block) (bp : Position)
    (fits : List Position → Position → Bool) :
    Option (List (Nat × Position) × Position) :=
  let w := blk.width
  let h := blk.height
  let cx : Int := ((w / 2 : Nat) : Int)
  let cy : Int := ((h / 2 : Nat) : Int)
  let rps := blk.points.map
    (fun p => rotFormula cx cy ((blk.get_point_position p.id).getD (0, 0)))
  match rps with
  | [] => none
  | r0 :: rtail =>
    let mnx := (rtail.map (·.1)).foldl min r0.1
    let mny := (rtail.map (·.2)).foldl min r0.2
    let candx : Int := (bp.1 : Int) + mnx
    let candy : Int := (bp.2 : Int) + mny
    if candx < 0 ∨ BOARD_WIDTH ≤ candx.toNat + h
        ∨ candy < 0 ∨ BOARD_HEIGHT ≤ candy.toNat + w then
      none
    else
      let norm : List Position :=
        rps.map (fun r => ((r.1 - mnx).toNat, (r.2 - mny).toNat))
      let npos : Position := (candx.toNat, candy.toNat)
      if fits norm npos then
        some ((blk.points.zip norm).map (fun pq => (pq.1.id, pq.2)), npos)
      else none

/-- A raw snapshot with no control held. -/
def rawNone : RawInput := ⟨false, false, false, false, false⟩

/-- A raw snapshot holding only instant drop. -/
def rawInstant : RawInput := ⟨false, false, false, false, true⟩

/-- A raw snapshot holding only move right. -/
def rawRight : RawInput := ⟨false, true, false, false, false⟩

/-- A raw snapshot holding move right and fast drop. -/
def rawRightFast : RawInput := ⟨false, true, false, true, false⟩

/-- A raw snapshot holding only fast drop. -/
def rawFast : RawInput := ⟨false, false, false, true, false⟩

/-- Does any cell of the active block sit in board column c? -/
def activeHitsCol (g : Game) (c : Nat) : Bool :=
  (ppValues g.active_block.points_pos).any
    (fun q => g.active_block_pos.1 + q.1 == c)

/-- Does any locked point sit in board column c? -/
def lockedHitsCol (g : Game) (c : Nat) : Bool :=
  (List.range BOARD_HEIGHT).any
    (fun y => match boardGet g.board y c with
              | some (some _) => true
              | _ => false)

/-- Did the run end in a live game state? -/
def exceptOk (r : Except Err Game) : Bool :=
  match r with
  | .ok _ => true
  | .error _ => false

/-- Does the active block of the resulting state occupy column c? -/
def colCheckActive (r : Except Err Game) (c : Nat) : Bool :=
  match r with
  | .ok g => activeHitsCol g c
  | .error _ => false

/-- Does a locked point of the resulting state occupy column c? -/
def colCheckLocked (r : Except Err Game) (c : Nat) : Bool :=
  match r with
  | .ok g => lockedHitsCol g c
  | .error _ => false

/-- Does one more tick of the resulting state panic on the lock assert? -/
def tickAsserts (r : Except Err Game) (raw : RawInput) (bt : BlockType) : Bool :=
  match r with
  | .ok g =>
    match tick g raw bt with
    | .error .assertFail => true
    | _ => false
  | .error _ => false

/-- The point stored at cell (x, y), if the cell is in bounds and
occupied. -/
def cellPt (b : Board) (y x : Nat) : Option Point :=
  match boardGet b y x with
  | some (some p) => some p
  | _ => none

/-- The points of row y, left to right: exactly the order in which the
inner loops of remove_rows visit them. -/
def rowPoints (b : Board) (y : Nat) : List Point :=
  (List.range BOARD_WIDTH).filterMap (cellPt b y)

/-- The number of locked points on the board. -/
def countB (b : Board) : Nat :=
  ((List.range BOARD_HEIGHT).map (fun y => (rowPoints b y).length)).sum

/-- The board has its declared dimensions. -/
def BoardShape (b : Board) : Prop :=
  b.length = BOARD_HEIGHT ∧ ∀ row ∈ b, row.length = BOARD_WIDTH

/-- Where a non-cleared row y lands after remove_rows clears `rows`:
shifted down by the number of cleared rows below it. -/
def tauShift (rows : List Nat) (y : Nat) : Nat :=
  y + (rows.filter (fun r => decide (y < r))).length

/-- The grid-map correspondence: point id i is stored in the grid at cell
(x, y) iff the locked-points map sends i to (x, y). -/
def Agree (b : Board) (m : PosMap) : Prop :=
  ∀ i x y, (∃ p, boardGet b y x = some (some p) ∧ p.id = i) ↔ m i = some (x, y)

/-- Well-formedness of a block, maintained by construction and rotation:
it has at least one point, point ids are pairwise distinct, and the keys
of points_pos are exactly the point ids in order. -/
structure BlockWF (blk : Block) : Prop where
  ne : blk.points ≠ []
  nodup : (blk.points.map Point.id).Nodup
  keys : blk.points_pos.map Prod.fst = blk.points.map Point.id

/-- The loop invariant of remove_rows on entry to the iteration that will
process rows n-1 down to 0, relative to the input board b0 and the
ascending row list `rows`. -/
structure RInv (b0 : Board) (rows : List Nat) (n : Nat) (s : RRState) : Prop where
  shape : BoardShape s.board
  rem_eq : s.rem = (rows.filter (fun r => decide (r < n))).reverse
  drop_eq : s.drop = (rows.filter (fun r => decide (n ≤ r))).length
  empt : ∀ y, n ≤ y → y < n + s.drop → ∀ x, x < BOARD_WIDTH →
    boardGet s.board y x = some none
  low : ∀ y, y < n → ∀ x, boardGet s.board y x = boardGet b0 y x
  high : ∀ y, n ≤ y → y < BOARD_HEIGHT → y ∉ rows → ∀ x, x < BOARD_WIDTH →
    boardGet s.board (tauShift rows y) x = boardGet b0 y x
  rmvd : s.removed =
    ((rows.filter (fun r => decide (n ≤ r))).reverse).flatMap (rowPoints b0)
  cnt : countB b0 =
    countB s.board + BOARD_WIDTH * (rows.filter (fun r => decide (n ≤ r))).length

/-- The remove_rows invariant extended with the grid-map correspondence
and an id bound, used for the reachability invariant. -/
structure RInvA (K : Nat) (b0 : Board) (rows : List Nat) (n : Nat) (s : RRState) : Prop where
  base : RInv b0 rows n s
  agree : Agree s.board s.pos
  ltK : ∀ y x p, boardGet s.board y x = some (some p) → p.id < K

/-- The reachability invariant of a game state: the board has its shape,
the active block is well formed and in bounds, the grid and the map agree,
and every id on the board or in the active block is below the generator
counter, with the active ids not yet locked. -/
structure GameInv (g : Game) : Prop where
  shape : BoardShape g.board
  wf : BlockWF g.active_block
  geomx : g.active_block_pos.1 + g.active_block.width ≤ BOARD_WIDTH - 1
  geomy : g.active_block_pos.2 + g.active_block.height ≤ BOARD_HEIGHT - 1
  agree : Agree g.board g.points_pos
  boardLt : ∀ y x p, boardGet g.board y x = some (some p) → p.id < g.genNext
  activeLt : ∀ p ∈ g.active_block.points, p.id < g.genNext
  activeFresh : ∀ p ∈ g.active_block.points, g.points_pos p.id = none

/-- The postcondition of remove_rows stated by claim C3, for a board b
and locked-points map m: every row strictly above every cleared row
shifts down by the number of cleared rows, every row strictly below
every cleared row is unchanged, and the locked-point count drops by
(number of cleared rows) * BOARD_WIDTH. -/
def c3Post (b : Board) (m : PosMap) : Prop :=
  (∀ y, y < BOARD_HEIGHT → (∀ r ∈ findFilledRows b, y < r) → ∀ x, x < BOARD_WIDTH →
    boardGet (removeRows b m (findFilledRows b)).board (y + (findFilledRows b).length) x
      = boardGet b y x) ∧
  (∀ y, y < BOARD_HEIGHT → (∀ r ∈ findFilledRows b, r < y) → ∀ x, x < BOARD_WIDTH →
    boardGet (removeRows b m (findFilledRows b)).board y x = boardGet b y x) ∧
  countB b = countB (removeRows b m (findFilledRows b)).board
    + (findFilledRows b).length * BOARD_WIDTH

/-- The move-left step of Game::tick (src/game.rs lines 155-163), as a
standalone function of the pre-tick state. -/
def tickStep1 (g : Game) (a : Acts) : Except Err Position :=
  if a.move_left ∧ 0 < g.active_block_pos.1 then
    match isBlockCollides g.board (ppValues g.active_block.points_pos)
        (g.active_block_pos.1 - 1, g.active_block_pos.2) with
    | .error e => .error e
    | .ok true => .ok g.active_block_pos
    | .ok false => .ok (g.active_block_pos.1 - 1, g.active_block_pos.2)
  else .ok g.active_block_pos

/-- The move-right step of Game::tick (src/game.rs lines 165-174). -/
def tickStep2 (g : Game) (a : Acts) (bp1 : Position) : Except Err Position :=
  if a.move_right ∧ bp1.1 + g.active_block.width < BOARD_WIDTH - 1 then
    match isBlockCollides g.board (ppValues g.active_block.points_pos) (bp1.1 + 1, bp1.2) with
    | .error e => .error e
    | .ok true => .ok bp1
    | .ok false => .ok (bp1.1 + 1, bp1.2)
  else .ok bp1

/-- The rotation step of Game::tick (src/game.rs lines 176-184). -/
def tickStep3 (g : Game) (a : Acts) (bp2 : Position) : Except Err (Block × Position) :=
  if a.rotate then
    match rotate_block g.active_block bp2
        (fun pts p =>
          match isBlockCollides g.board pts p with
          | .error e => .error e
          | .ok c => .ok (!c)) with
    | .error e => .error e
    | .ok none => .ok (g.active_block, bp2)
    | .ok (some r) => .ok ({ g.active_block with points_pos := r.1 }, r.2)
  else .ok (g.active_block, bp2)

/-- The gravity-and-lock step of Game::tick (src/game.rs lines 186-218). -/
def tickStep4 (g : Game) (a : Acts) (bt : BlockType) (blk3 : Block) (bp3 : Position) :
    Except Err (Game × List TickChange) :=
  let speed := if a.fast_drop then fast_drop_speed else drop_speed
  let tr := tickAndRestartIfElapsed g.drop_timer speed
  if tr.1 then
    let lockNow : Except Err Bool :=
      if bp3.2 + blk3.height = BOARD_HEIGHT - 1 then .ok true
      else
        match isBlockCollides g.board (ppValues blk3.points_pos) (bp3.1, bp3.2 + 1) with
        | .error e => .error e
        | .ok c => .ok c
    match lockNow with
    | .error e => .error e
    | .ok true =>
      match lockGo blk3 bp3 g.board g.points_pos blk3.points with
      | .error e => .error e
      | .ok bm =>
        let rows := findFilledRows bm.1
        let rr := removeRows bm.1 bm.2 rows
        let nb := blockNew bt g.genNext
        .ok ({ g with
                genNext := nb.2,
                board := rr.board,
                points_pos := rr.pos,
                active_block := nb.1,
                active_block_pos := (4, 0),
                drop_timer := tr.2 },
             TickChange.blockLocked ::
               rr.removed.map (fun p => TickChange.pointRemoved p.id)
               ++ [TickChange.newBlock])
    | .ok false =>
      .ok ({ g with active_block := blk3,
                    active_block_pos := (bp3.1, bp3.2 + 1),
                    drop_timer := tr.2 }, [])
  else
    .ok ({ g with active_block := blk3,
                  active_block_pos := bp3,
                  drop_timer := tr.2 }, [])

/-- Sequencing of the last two tick steps. -/
def tickCompose3 (s3 : Except Err (Block × Position))
    (s4 : Block → Position → Except Err (Game × List TickChange)) :
    Except Err (Game × List TickChange) :=
  match s3 with
  | .error e => .error e
  | .ok (blk3, bp3) => s4 blk3 bp3

/-- Sequencing of the last three tick steps. -/
def tickCompose2 (s2 : Except Err Position)
    (s3 : Position → Except Err (Block × Position))
    (s4 : Block → Position → Except Err (Game × List TickChange)) :
    Except Err (Game × List TickChange) :=
  match s2 with
  | .error e => .error e
  | .ok bp2 => tickCompose3 (s3 bp2) s4

/-- Sequencing of all four tick steps. -/
def tickCompose (s1 : Except Err Position) (s2 : Position → Except Err Position)
    (s3 : Position → Except Err (Block × Position))
    (s4 : Block → Position → Except Err (Game × List TickChange)) :
    Except Err (Game × List TickChange) :=
  match s1 with
  | .error e => .error e
  | .ok bp1 => tickCompose2 (s2 bp1) s3 s4

/-! ## Theorems -/

theorem raHeld_wait (n : Nat) (h : n < 30) :
    raHeld n = ⟨.wait, ⟨n⟩, decide (n = 0), 30, 5⟩ := by
  induction n with
  | zero => rfl
  | succ n ih =>
    have hn : n < 30 := by omega
    have hlt : ¬ (30 ≤ n + 1) := by omega
    have hz : ¬ (n + 1 = 0) := by omega
    rw [raHeld, ih hn]
    simp [raTick, tickAndRestartIfElapsed, timerTick, timerRestart, hasElapsed, hlt, hz]

theorem raHeld_rep (m : Nat) :
    raHeld (30 + m) = ⟨.rep, ⟨m % 5⟩, decide (m % 5 = 0), 30, 5⟩ := by
  induction m with
  | zero =>
    have h29 := raHeld_wait 29 (by omega)
    show raTick (raHeld 29) true = _
    rw [h29]
    rfl
  | succ m ih =>
    have he : 30 + (m + 1) = (30 + m) + 1 := by omega
    rw [he, raHeld, ih]
    by_cases h5 : m % 5 = 4
    · have hf : 5 ≤ m % 5 + 1 := by omega
      have h0 : (m + 1) % 5 = 0 := by omega
      simp [raTick, tickAndRestartIfElapsed, timerTick, timerRestart, hasElapsed, hf, h0]
    · have hf : ¬ (5 ≤ m % 5 + 1) := by omega
      have h1 : (m + 1) % 5 = m % 5 + 1 := by omega
      have h2 : ¬ ((m + 1) % 5 = 0) := by omega
      simp [raTick, tickAndRestartIfElapsed, timerTick, timerRestart, hasElapsed, hf, h1, h2]

/-- C5: with wait_duration 30 and repeat_duration 5, a continuously held
action is active exactly at tick 0, tick 30, and every fifth tick after
tick 30, and inactive at every other tick. -/
theorem c5_repeated_action_timing (n : Nat) :
    (raHeld n).active = true ↔ (n = 0 ∨ (30 ≤ n ∧ (n - 30) % 5 = 0)) := by
  rcases Nat.lt_or_ge n 30 with h | h
  · rw [raHeld_wait n h]
    simp only [decide_eq_true_eq]
    omega
  · have he : n = 30 + (n - 30) := by omega
    rw [he, raHeld_rep]
    simp only [decide_eq_true_eq]
    omega

/-- C6 counterexample: four successive rotations of the freshly spawned O
block on an empty board, starting at anchor (4, 0), restore the local
point layout but move the anchor to (0, 0), not back to (4, 0). -/
theorem c6_counterexample :
    rotFour (oBlk, (4, 0)) = some (oBlk, (0, 0)) ∧
      ((0, 0) : Position) ≠ ((4, 0) : Position) := by
  constructor
  · decide
  · decide

/-- C6 amended: for every anchor at which all four bounds checks succeed
(4 ≤ x ≤ 9, y ≤ 22; the board is empty so the collision predicate always
succeeds), four rotations of the O block restore the per-point local
position mapping exactly, while the anchor moves left by one column per
rotation, ending at (x - 4, y). -/
theorem c6_o_four_rotations (ax ay : Nat)
    (h1 : 4 ≤ ax) (h2 : ax ≤ 9) (h3 : ay ≤ 22) :
    rotFour (oBlk, (ax, ay)) = some (oBlk, (ax - 4, ay)) := by
  have key : ∀ a, a < 6 → ∀ b, b < 23 →
      rotFour (oBlk, (a + 4, b)) = some (oBlk, (a, b)) := by decide
  have hx : ax = (ax - 4) + 4 := by omega
  have hr : (ax - 4) + 4 - 4 = ax - 4 := by omega
  rw [hx]
  exact key (ax - 4) (by omega) ay (by omega)

/-- Witness for c6_o_four_rotations at anchor (4, 0). -/
theorem c6_o_four_rotations_witness :
    rotFour (oBlk, (4, 0)) = some (oBlk, (0, 0)) :=
  c6_o_four_rotations 4 0 (by decide) (by decide) (by decide)

/-- C8: the instant-drop flag has no effect on a tick: two raw snapshots
agreeing on every control except instant drop produce, from any game
state, the same events, board, locked-points map, active block and anchor
(the instant-drop bit is merely stored in the SmartInput and never read). -/
theorem c8_instant_drop_no_effect (g : Game) (r1 r2 : RawInput) (bt : BlockType)
    (h1 : r1.move_left = r2.move_left) (h2 : r1.move_right = r2.move_right)
    (h3 : r1.rotate = r2.rotate) (h4 : r1.fast_drop = r2.fast_drop) :
    tickObs (tick g r1 bt) = tickObs (tick g r2 bt) := by
  have hacts : actsOf (smartInputTick g.input r1) = actsOf (smartInputTick g.input r2) := by
    simp [actsOf, smartInputTick, raTick, h1, h2, h3, h4]
  simp only [tick]
  rw [hacts]
  cases tickInner g (actsOf (smartInputTick g.input r2)) bt with
  | error e => rfl
  | ok r => rfl

/-- Witness for c8_instant_drop_no_effect: a fresh game, one snapshot
holding only instant drop against one holding nothing. -/
theorem c8_witness :
    tickObs (tick (Game.new .I) rawInstant .I) = tickObs (tick (Game.new .I) rawNone .I) :=
  c8_instant_drop_no_effect (Game.new .I) rawInstant rawNone .I rfl rfl rfl rfl

theorem rotPointsE_total (pp : List (Nat × Position)) (cx cy : Int) (pts : List Point)
    (h : ∀ p ∈ pts, (lookupPos pp p.id).isSome) :
    rotPointsE pp cx cy pts =
      .ok (pts.map (fun p => rotFormula cx cy ((lookupPos pp p.id).getD (0, 0)))) := by
  induction pts with
  | nil => rfl
  | cons p rest ih =>
    obtain ⟨q, hq⟩ := Option.isSome_iff_exists.mp (h p (by simp))
    rw [rotPointsE, hq, ih (fun x hx => h x (by simp [hx]))]
    simp [hq]

/-- C2: on any block whose point lookups are defined (true of every block
the game builds), rotate_block computes exactly the algorithm stated by
the specification: rotation of each local point about (w/2, h/2) by
`(x, y) to (-(y - cy) + cx, (x - cx) + cy)`, candidate anchor translated
by the minimum rotated coordinates, rejection exactly when the candidate
x is negative or x + h reaches BOARD_WIDTH or the candidate y is negative
or y + w reaches BOARD_HEIGHT or the collision predicate rejects the
normalized placement, and otherwise the same point ids with normalized
rotated positions plus the candidate anchor. -/
theorem c2_rotate_block_matches_spec (blk : Block) (bp : Position)
    (fits : List Position → Position → Bool)
    (h : ∀ p ∈ blk.points, (lookupPos blk.points_pos p.id).isSome)
    (hne : blk.points ≠ []) :
    rotate_block blk bp (fun pts q => .ok (fits pts q)) =
      .ok (rotate_block_fromSpec blk bp fits) := by
  unfold rotate_block rotate_block_fromSpec
  simp only [Block.get_point_position]
  rw [rotPointsE_total _ _ _ _ h]
  generalize hL : (blk.points.map (fun p => rotFormula ((blk.width / 2 : Nat) : Int)
      ((blk.height / 2 : Nat) : Int) ((lookupPos blk.points_pos p.id).getD (0, 0)))) = L
  have hLne : L ≠ [] := by
    intro hnil
    rw [hnil] at hL
    exact hne (List.map_eq_nil_iff.mp hL)
  cases L with
  | nil => exact absurd rfl hLne
  | cons r0 rtail =>
    by_cases hcond : ((bp.1 : Int) + List.foldl min r0.1 (List.map (fun x => x.1) rtail) < 0
        ∨ BOARD_WIDTH ≤ ((bp.1 : Int) + List.foldl min r0.1 (List.map (fun x => x.1) rtail)).toNat + blk.height
        ∨ (bp.2 : Int) + List.foldl min r0.2 (List.map (fun x => x.2) rtail) < 0
        ∨ BOARD_HEIGHT ≤ ((bp.2 : Int) + List.foldl min r0.2 (List.map (fun x => x.2) rtail)).toNat + blk.width)
    · simp only [hcond, if_true, ite_true]
    · by_cases hfits : fits
          (List.map (fun r => ((r.1 - List.foldl min r0.1 (List.map (fun x => x.1) rtail)).toNat,
              (r.2 - List.foldl min r0.2 (List.map (fun x => x.2) rtail)).toNat)) (r0 :: rtail))
          (((bp.1 : Int) + List.foldl min r0.1 (List.map (fun x => x.1) rtail)).toNat,
            ((bp.2 : Int) + List.foldl min r0.2 (List.map (fun x => x.2) rtail)).toNat) = true
      · simp only [List.map_cons] at hfits
        simp [hcond, hfits]
      · simp only [List.map_cons] at hfits
        simp [hcond, hfits]

/-- Witness for c2_rotate_block_matches_spec: the freshly spawned O block
at the spawn anchor with an all-accepting predicate. -/
theorem c2_witness :
    rotate_block oBlk (4, 0) (fun pts q => .ok ((fun _ _ => true) pts q)) =
      .ok (rotate_block_fromSpec oBlk (4, 0) (fun _ _ => true)) :=
  c2_rotate_block_matches_spec oBlk (4, 0) (fun _ _ => true) (by decide) (by decide)

theorem runTicks_reachable (raw : RawInput) (bt : BlockType) :
    ∀ n g, runTicks raw bt n = .ok g → Reachable g := by
  intro n
  induction n with
  | zero =>
    intro g hg
    rw [runTicks] at hg
    cases hg
    exact Reachable.init bt
  | succ n ih =>
    intro g hg
    rw [runTicks] at hg
    cases hn : runTicks raw bt n with
    | error e => simp [hn] at hg
    | ok g0 =>
      simp only [hn] at hg
      cases ht : tick g0 raw bt with
      | error e => simp [ht] at hg
      | ok r =>
        simp only [ht] at hg
        injection hg with h
        subst h
        exact Reachable.step (ih g0 hn) ht

set_option maxRecDepth 40000 in
/-- C7 counterexample: holding move-right from a fresh game that spawned
the O piece, the state after 41 ticks is reachable and its active block
occupies column BOARD_WIDTH - 1 = 9, so the move-right guard does not
keep that column free. -/
theorem c7_counterexample :
    ∃ g, runTicks rawRight .O 41 = .ok g ∧ Reachable g ∧ activeHitsCol g 9 = true := by
  cases hEq : runTicks rawRight .O 41 with
  | error e =>
    have hok : exceptOk (runTicks rawRight .O 41) = true := by rfl
    rw [hEq] at hok
    simp [exceptOk] at hok
  | ok g =>
    have hc : colCheckActive (runTicks rawRight .O 41) 9 = true := by rfl
    rw [hEq] at hc
    exact ⟨g, rfl, runTicks_reachable _ _ _ _ hEq, hc⟩

set_option maxRecDepth 100000 in
/-- C7 amended: the right edge column is usable, not unusable; holding
move-right and fast-drop from a fresh game that spawned the O piece, the
state after 120 ticks is reachable and has locked points in column
BOARD_WIDTH - 1 = 9. -/
theorem c7_locked_in_last_column :
    ∃ g, runTicks rawRightFast .O 120 = .ok g ∧ Reachable g ∧ lockedHitsCol g 9 = true := by
  cases hEq : runTicks rawRightFast .O 120 with
  | error e =>
    have hok : exceptOk (runTicks rawRightFast .O 120) = true := by rfl
    rw [hEq] at hok
    simp [exceptOk] at hok
  | ok g =>
    have hc : colCheckLocked (runTicks rawRightFast .O 120) 9 = true := by rfl
    rw [hEq] at hc
    exact ⟨g, rfl, runTicks_reachable _ _ _ _ hEq, hc⟩

set_option maxRecDepth 100000 in
/-- C9: the lock assert can fail from a reachable state.  Holding
fast-drop while every spawn is the I piece stacks six vertical pieces that
fill column 4 up to the top; the seventh piece spawns overlapping the
stack (spawn_block performs no collision check) and on its first gravity
step the lock branch hits an occupied target cell: tick returns the
assert panic. -/
theorem c9_lock_assert_fails :
    ∃ g, runTicks rawFast .I 334 = .ok g ∧ Reachable g ∧
      tick g rawFast .I = .error .assertFail := by
  cases hEq : runTicks rawFast .I 334 with
  | error e =>
    have hok : exceptOk (runTicks rawFast .I 334) = true := by rfl
    rw [hEq] at hok
    simp [exceptOk] at hok
  | ok g =>
    have hc : tickAsserts (runTicks rawFast .I 334) rawFast .I = true := by rfl
    rw [hEq] at hc
    cases ht : tick g rawFast .I with
    | error e =>
      cases e with
      | assertFail => exact ⟨g, rfl, runTicks_reachable _ _ _ _ hEq, ht⟩
      | oob => rw [tickAsserts, ht] at hc; simp at hc
      | unwrapFail => rw [tickAsserts, ht] at hc; simp at hc
    | ok r => rw [tickAsserts, ht] at hc; simp at hc

theorem boardGet_some_lt {b : Board} {y x : Nat} {c : Option Point}
    (hsh : BoardShape b) (h : boardGet b y x = some c) :
    y < BOARD_HEIGHT ∧ x < BOARD_WIDTH := by
  rw [boardGet] at h
  cases hrow : b[y]? with
  | none => simp [hrow] at h
  | some row =>
    simp only [hrow] at h
    have hy : y < b.length := by
      by_contra hy
      rw [List.getElem?_eq_none (by omega)] at hrow
      cases hrow
    have hx : x < row.length := by
      by_contra hx
      rw [List.getElem?_eq_none (by omega)] at h
      cases h
    have hmem : row ∈ b := by
      obtain ⟨h1, h2⟩ := List.getElem?_eq_some.mp hrow
      exact h2 ▸ List.getElem_mem h1
    constructor
    · rw [hsh.1] at hy
      exact hy
    · rw [hsh.2 row hmem] at hx
      exact hx

theorem boardGet_lt_isSome {b : Board} {y x : Nat}
    (hsh : BoardShape b) (hy : y < BOARD_HEIGHT) (hx : x < BOARD_WIDTH) :
    ∃ c, boardGet b y x = some c := by
  rw [boardGet]
  have hy' : y < b.length := by rw [hsh.1]; exact hy
  rw [List.getElem?_eq_getElem hy']
  have hmem : b[y] ∈ b := List.getElem_mem hy'
  have hx' : x < (b[y]).length := by rw [hsh.2 _ hmem]; exact hx
  exact ⟨b[y][x], List.getElem?_eq_getElem hx'⟩

theorem boardGet_oob {b : Board} {y x : Nat}
    (hsh : BoardShape b) (h : BOARD_HEIGHT ≤ y ∨ BOARD_WIDTH ≤ x) :
    boardGet b y x = none := by
  rw [boardGet]
  rcases h with h | h
  · rw [List.getElem?_eq_none (by rw [hsh.1]; exact h)]
  · cases hrow : b[y]? with
    | none => rfl
    | some row =>
      have hmem : row ∈ b := by
        obtain ⟨h1, h2⟩ := List.getElem?_eq_some.mp hrow
        exact h2 ▸ List.getElem_mem h1
      exact List.getElem?_eq_none (by rw [hsh.2 _ hmem]; exact h)

theorem setCell_shape {b : Board} {y x : Nat} {v : Option Point}
    (hsh : BoardShape b) : BoardShape (setCell b y x v) := by
  rw [setCell]
  cases hrow : b[y]? with
  | none => exact hsh
  | some row =>
    constructor
    · rw [List.length_set]; exact hsh.1
    · intro r hr
      rcases List.mem_or_eq_of_mem_set hr with h | h
      · exact hsh.2 r h
      · subst h
        rw [List.length_set]
        have hmem : row ∈ b := by
          obtain ⟨h1, h2⟩ := List.getElem?_eq_some.mp hrow
          exact h2 ▸ List.getElem_mem h1
        exact hsh.2 row hmem

theorem boardGet_setCell_self {b : Board} {y x : Nat} {v : Option Point}
    (hsh : BoardShape b) (hy : y < BOARD_HEIGHT) (hx : x < BOARD_WIDTH) :
    boardGet (setCell b y x v) y x = some v := by
  rw [setCell]
  have hy' : y < b.length := by rw [hsh.1]; exact hy
  have hmem : b[y] ∈ b := List.getElem_mem hy'
  have hx' : x < (b[y]).length := by rw [hsh.2 _ hmem]; exact hx
  simp only [List.getElem?_eq_getElem hy']
  rw [boardGet]
  simp only [List.getElem?_set_eq hy', List.getElem?_set_eq hx']

theorem boardGet_setCell_ne {b : Board} {y x y' x' : Nat} {v : Option Point}
    (h : y' ≠ y ∨ x' ≠ x) :
    boardGet (setCell b y x v) y' x' = boardGet b y' x' := by
  rw [setCell]
  cases hrow : b[y]? with
  | none => rfl
  | some row =>
    rw [boardGet, boardGet]
    by_cases hyy : y' = y
    · subst hyy
      have hne : x' ≠ x := by tauto
      have hlt : y' < b.length := by
        by_contra hq
        rw [List.getElem?_eq_none (by omega)] at hrow
        cases hrow
      simp only [List.getElem?_set_eq hlt, hrow]
      rw [List.getElem?_set_ne (by omega)]
    · rw [List.getElem?_set_ne (by omega)]

theorem foldl_max_init_le (l : List Nat) (b : Nat) : b ≤ l.foldl max b := by
  induction l generalizing b with
  | nil => exact le_refl b
  | cons c rest ih => exact le_trans (le_max_left b c) (ih (max b c))

theorem le_foldl_max_nat (l : List Nat) (a b : Nat) (h : a ∈ l) : a ≤ l.foldl max b := by
  induction l generalizing b with
  | nil => cases h
  | cons c rest ih =>
    rcases List.mem_cons.mp h with h | h
    · subst h
      exact le_trans (le_max_right b a) (foldl_max_init_le rest (max b a))
    · exact ih (max b c) h

theorem foldl_max_le_nat (l : List Nat) (b c : Nat) (hb : b ≤ c) (h : ∀ a ∈ l, a ≤ c) :
    l.foldl max b ≤ c := by
  induction l generalizing b with
  | nil => exact hb
  | cons d rest ih =>
    exact ih (max b d) (max_le hb (h d (by simp))) (fun a ha => h a (by simp [ha]))

theorem foldl_min_init_le (l : List Int) (b : Int) : l.foldl min b ≤ b := by
  induction l generalizing b with
  | nil => exact le_refl b
  | cons c rest ih => exact le_trans (ih (min b c)) (min_le_left b c)

theorem foldl_min_le_mem_int (l : List Int) (a b : Int) (h : a ∈ l) : l.foldl min b ≤ a := by
  induction l generalizing b with
  | nil => cases h
  | cons c rest ih =>
    rcases List.mem_cons.mp h with h | h
    · subst h
      exact le_trans (foldl_min_init_le rest (min b a)) (min_le_right b a)
    · exact ih (min b c) h

theorem le_foldl_min_int (l : List Int) (b c : Int) (hb : c ≤ b) (h : ∀ a ∈ l, c ≤ a) :
    c ≤ l.foldl min b := by
  induction l generalizing b with
  | nil => exact hb
  | cons d rest ih =>
    exact ih (min b d) (le_min hb (h d (by simp))) (fun a ha => h a (by simp [ha]))

theorem sumRange_congr (f g : Nat → Nat) (n : Nat) (h : ∀ y, y < n → f y = g y) :
    ((List.range n).map f).sum = ((List.range n).map g).sum := by
  induction n with
  | zero => rfl
  | succ n ih =>
    rw [List.range_succ, List.map_append, List.map_append, List.sum_append, List.sum_append]
    rw [ih (fun y hy => h y (by omega)), List.map_singleton, List.map_singleton, h n (by omega)]

theorem sumRange_clear (f f' : Nat → Nat) (n y0 : Nat) (hy : y0 < n)
    (h : ∀ y, y < n → y ≠ y0 → f' y = f y) (h0 : f' y0 = 0) :
    ((List.range n).map f').sum + f y0 = ((List.range n).map f).sum := by
  induction n with
  | zero => omega
  | succ n ih =>
    rw [List.range_succ, List.map_append, List.map_append, List.sum_append, List.sum_append]
    by_cases hcase : y0 = n
    · subst hcase
      have : ((List.range y0).map f').sum = ((List.range y0).map f).sum :=
        sumRange_congr f' f y0 (fun y hy2 => h y (by omega) (by omega))
      simp [this, h0]
    · have hlt : y0 < n := by omega
      have := ih hlt (fun y hy2 hne => h y (by omega) hne)
      have hn : f' n = f n := h n (by omega) (by omega)
      simp [hn]
      omega

theorem sumRange_move2 (f f' : Nat → Nat) (n y yd : Nat) (hy : y < n) (hyd : yd < n)
    (hne : y ≠ yd) (h : ∀ z, z < n → z ≠ y → z ≠ yd → f' z = f z)
    (h0 : f' y = 0) (h1 : f' yd = f y) (h2 : f yd = 0) :
    ((List.range n).map f').sum = ((List.range n).map f).sum := by
  have hA : ((List.range n).map (fun z => if z = yd then 0 else f' z)).sum + f y
      = ((List.range n).map f).sum := by
    apply sumRange_clear _ _ n y hy
    · intro z hz hzy
      by_cases hzyd : z = yd
      · subst hzyd; simp [h2]
      · simp [hzyd, h z hz hzy hzyd]
    · simp [hne, h0]
  have hB : ((List.range n).map (fun z => if z = yd then 0 else f' z)).sum + f' yd
      = ((List.range n).map f').sum := by
    apply sumRange_clear f' _ n yd hyd
    · intro z hz hzyd
      simp [hzyd]
    · simp
  omega

theorem filter_lt_succ_mem (rows : List Nat) (hp : rows.Pairwise (· < ·)) (n : Nat)
    (hn : n ∈ rows) :
    rows.filter (fun r => decide (r < n + 1)) = rows.filter (fun r => decide (r < n)) ++ [n] := by
  induction rows with
  | nil => cases hn
  | cons a rest ih =>
    have ha : ∀ b ∈ rest, a < b := fun b hb => List.rel_of_pairwise_cons hp hb
    have hrest : rest.Pairwise (· < ·) := List.Pairwise.of_cons hp
    rcases List.mem_cons.mp hn with hcase | hcase
    · subst hcase
      have h1 : rest.filter (fun r => decide (r < n + 1)) = [] :=
        List.filter_eq_nil_iff.mpr (fun b hb => by
          have := ha b hb
          simp
          omega)
      have h2 : rest.filter (fun r => decide (r < n)) = [] :=
        List.filter_eq_nil_iff.mpr (fun b hb => by
          have := ha b hb
          simp
          omega)
      simp [List.filter_cons, h1, h2]
    · have han : a < n := ha n hcase
      rw [List.filter_cons, List.filter_cons]
      have e1 : (decide (a < n + 1)) = true := decide_eq_true (by omega)
      have e2 : (decide (a < n)) = true := decide_eq_true (by omega)
      rw [e1, e2]
      simp only [if_true, cond_true]
      rw [ih hrest hcase]
      rfl

theorem filter_ge_mem (rows : List Nat) (hp : rows.Pairwise (· < ·)) (n : Nat)
    (hn : n ∈ rows) :
    rows.filter (fun r => decide (n ≤ r)) = n :: rows.filter (fun r => decide (n + 1 ≤ r)) := by
  induction rows with
  | nil => cases hn
  | cons a rest ih =>
    have ha : ∀ b ∈ rest, a < b := fun b hb => List.rel_of_pairwise_cons hp hb
    have hrest : rest.Pairwise (· < ·) := List.Pairwise.of_cons hp
    rcases List.mem_cons.mp hn with hcase | hcase
    · subst hcase
      have hcg : rest.filter (fun r => decide (n ≤ r)) = rest.filter (fun r => decide (n + 1 ≤ r)) :=
        List.filter_congr' (fun b hb => by
          have := ha b hb
          simp
          omega)
      rw [List.filter_cons, List.filter_cons]
      have e1 : (decide (n ≤ n)) = true := decide_eq_true (by omega)
      have e2 : (decide (n + 1 ≤ n)) = false := decide_eq_false (by omega)
      rw [e1, e2, hcg]
      rfl
    · have han : a < n := ha n hcase
      rw [List.filter_cons, List.filter_cons]
      have e1 : (decide (n ≤ a)) = false := decide_eq_false (by omega)
      have e2 : (decide (n + 1 ≤ a)) = false := decide_eq_false (by omega)
      rw [e1, e2]
      simp only [Bool.false_eq_true, if_false]
      exact ih hrest hcase

theorem filter_lt_succ_not_mem (rows : List Nat) (n : Nat) (hn : n ∉ rows) :
    rows.filter (fun r => decide (r < n + 1)) = rows.filter (fun r => decide (r < n)) :=
  List.filter_congr' (fun b hb => by
    have : b ≠ n := fun he => hn (he ▸ hb)
    simp
    omega)

theorem filter_ge_not_mem (rows : List Nat) (n : Nat) (hn : n ∉ rows) :
    rows.filter (fun r => decide (n ≤ r)) = rows.filter (fun r => decide (n + 1 ≤ r)) :=
  List.filter_congr' (fun b hb => by
    have : b ≠ n := fun he => hn (he ▸ hb)
    simp
    omega)

theorem head_reverse_filter_ne (rows : List Nat) (n : Nat) (hn : n ∉ rows)
    (p : Nat → Bool) : ((rows.filter p).reverse).head? ≠ some n := by
  intro h
  have hmem : n ∈ (rows.filter p).reverse := List.mem_of_mem_head? h
  rw [List.mem_reverse] at hmem
  exact hn (List.mem_of_mem_filter hmem)

theorem nodup_length_le (l : List Nat) (a b : Nat) (hnd : l.Nodup)
    (hb : ∀ r ∈ l, a ≤ r ∧ r < b) : l.length ≤ b - a := by
  have h1 : l.toFinset ⊆ Finset.Ico a b := by
    intro x hx
    simp only [List.mem_toFinset] at hx
    simp only [Finset.mem_Ico]
    exact hb x hx
  have h2 := Finset.card_le_card h1
  rw [List.toFinset_card_of_nodup hnd, Nat.card_Ico] at h2
  exact h2

theorem length_filter_split (l : List Nat) (p q : Nat → Bool) :
    (l.filter p).length =
      (l.filter (fun a => p a && q a)).length + (l.filter (fun a => p a && !q a)).length := by
  induction l with
  | nil => rfl
  | cons a rest ih =>
    rw [List.filter_cons, List.filter_cons, List.filter_cons]
    cases hp : p a <;> cases hq : q a <;> simp [hp, hq] <;> omega

theorem rowPoints_congr {b b' : Board} {y y' : Nat}
    (h : ∀ x, x < BOARD_WIDTH → boardGet b' y' x = boardGet b y x) :
    rowPoints b' y' = rowPoints b y := by
  rw [rowPoints, rowPoints]
  exact List.filterMap_congr (fun x hx => by
    rw [cellPt, cellPt, h x (List.mem_range.mp hx)])

theorem length_filterMap_range_total (k : Nat) (f : Nat → Option Point)
    (h : ∀ x, x < k → (f x).isSome) : ((List.range k).filterMap f).length = k := by
  induction k with
  | zero => rfl
  | succ k ih =>
    rw [List.range_succ, List.filterMap_append]
    obtain ⟨p, hp⟩ := Option.isSome_iff_exists.mp (h k (by omega))
    simp [hp, ih (fun x hx => h x (by omega))]

theorem rowPoints_len_filled {b : Board} {y : Nat} (hsh : BoardShape b)
    (hy : y < BOARD_HEIGHT) (hf : rowFilled b y = true) :
    (rowPoints b y).length = BOARD_WIDTH := by
  rw [rowPoints]
  apply length_filterMap_range_total
  intro x hx
  rw [rowFilled] at hf
  cases hrow : b[y]? with
  | none => rw [hrow] at hf; cases hf
  | some row =>
    rw [hrow] at hf
    have hxl : x < row.length := by
      have hmem : row ∈ b := by
        obtain ⟨h1, h2⟩ := List.getElem?_eq_some.mp hrow
        exact h2 ▸ List.getElem_mem h1
      rw [hsh.2 _ hmem]
      exact hx
    have hcell : row[x] ∈ row := List.getElem_mem hxl
    have hsome : (row[x]).isSome := by
      have := List.all_eq_true.mp hf _ hcell
      simpa using this
    obtain ⟨p, hp⟩ := Option.isSome_iff_exists.mp hsome
    have hbg : boardGet b y x = some (some p) := by
      simp only [boardGet, hrow]
      rw [List.getElem?_eq_getElem hxl, hp]
    simp only [cellPt, hbg]
    rfl

theorem rowPoints_nil_of_empty {b : Board} {y : Nat}
    (h : ∀ x, x < BOARD_WIDTH → boardGet b y x = some none) :
    rowPoints b y = [] := by
  rw [rowPoints]
  rw [List.filterMap_eq_nil_iff]
  intro x hx
  rw [cellPt, h x (List.mem_range.mp hx)]

theorem clearRow_char (y : Nat) (s : RRState) (hsh : BoardShape s.board) (hy : y < BOARD_HEIGHT) :
    ∀ k, k ≤ BOARD_WIDTH →
      BoardShape ((List.range k).foldl (clearCell y) s).board ∧
      ((List.range k).foldl (clearCell y) s).rem = s.rem ∧
      ((List.range k).foldl (clearCell y) s).drop = s.drop ∧
      ((List.range k).foldl (clearCell y) s).removed
        = s.removed ++ (List.range k).filterMap (cellPt s.board y) ∧
      (∀ y' x', boardGet ((List.range k).foldl (clearCell y) s).board y' x'
        = if y' = y ∧ x' < k then some none else boardGet s.board y' x') ∧
      (∀ x' p, x' < k → cellPt s.board y x' = some p →
        ((List.range k).foldl (clearCell y) s).pos p.id = none) ∧
      (∀ i, (∀ x' p, x' < k → cellPt s.board y x' = some p → p.id ≠ i) →
        ((List.range k).foldl (clearCell y) s).pos i = s.pos i) := by
  intro k
  induction k with
  | zero =>
    intro _
    refine ⟨hsh, rfl, rfl, by simp, ?_, ?_, ?_⟩
    · intro y' x'
      simp
    · intro x' p h
      omega
    · intro i _
      rfl
  | succ k ih =>
    intro hk1
    have hk : k ≤ BOARD_WIDTH := by omega
    have hklt : k < BOARD_WIDTH := by omega
    obtain ⟨ISH, IREM, IDROP, IRMV, IBRD, IP1, IP2⟩ := ih hk
    have hread : boardGet ((List.range k).foldl (clearCell y) s).board y k
        = boardGet s.board y k := by
      rw [IBRD]
      simp
    have hstep : (List.range (k + 1)).foldl (clearCell y) s
        = clearCell y ((List.range k).foldl (clearCell y) s) k := by
      rw [List.range_succ, List.foldl_append]
      rfl
    obtain ⟨c, hc⟩ := boardGet_lt_isSome hsh hy hklt
    cases c with
    | some p =>
      have hcell : cellPt s.board y k = some p := by simp [cellPt, hc]
      have hcc : clearCell y ((List.range k).foldl (clearCell y) s) k
          = { (List.range k).foldl (clearCell y) s with
              board := setCell ((List.range k).foldl (clearCell y) s).board y k none,
              pos := pmRemove ((List.range k).foldl (clearCell y) s).pos p.id,
              removed := ((List.range k).foldl (clearCell y) s).removed ++ [p] } := by
        rw [clearCell, hread, hc]
      rw [hstep, hcc]
      refine ⟨setCell_shape ISH, IREM, IDROP, ?_, ?_, ?_, ?_⟩
      · show ((List.range k).foldl (clearCell y) s).removed ++ [p] = _
        rw [IRMV, List.range_succ, List.filterMap_append, List.append_assoc]
        simp [hcell]
      · intro y' x'
        show boardGet (setCell ((List.range k).foldl (clearCell y) s).board y k none) y' x' = _
        by_cases hcase : y' = y ∧ x' = k
        · obtain ⟨h1, h2⟩ := hcase
          subst h1
          subst h2
          rw [boardGet_setCell_self ISH hy hklt]
          simp
        · have hne : y' ≠ y ∨ x' ≠ k := by tauto
          rw [boardGet_setCell_ne hne, IBRD]
          by_cases h1 : y' = y ∧ x' < k
          · have h2 : y' = y ∧ x' < k + 1 := ⟨h1.1, by omega⟩
            simp [h1, h2]
          · have h2 : ¬(y' = y ∧ x' < k + 1) := by
              rintro ⟨hyy, hxx⟩
              rcases hne with hne | hne
              · exact hne hyy
              · exact h1 ⟨hyy, by omega⟩
            simp [h1, h2]
      · intro x' p' hx' hcell'
        show pmRemove ((List.range k).foldl (clearCell y) s).pos p.id p'.id = none
        by_cases hip : p'.id = p.id
        · simp [pmRemove, hip]
        · have hxk : x' ≠ k := by
            intro he
            subst he
            rw [hcell'] at hcell
            injection hcell with hpe
            exact hip (by rw [hpe])
          have := IP1 x' p' (by omega) hcell'
          simp [pmRemove, hip, this]
      · intro i hno
        show pmRemove ((List.range k).foldl (clearCell y) s).pos p.id i = _
        have hpi : p.id ≠ i := hno k p (by omega) hcell
        have hip : ¬ (i = p.id) := fun h => hpi h.symm
        have hold := IP2 i (fun x' p' hx' hc' => hno x' p' (by omega) hc')
        simp [pmRemove, hip, hold]
    | none =>
      have hcell : cellPt s.board y k = none := by simp [cellPt, hc]
      have hcc : clearCell y ((List.range k).foldl (clearCell y) s) k
          = (List.range k).foldl (clearCell y) s := by
        rw [clearCell, hread, hc]
      rw [hstep, hcc]
      refine ⟨ISH, IREM, IDROP, ?_, ?_, ?_, ?_⟩
      · rw [IRMV, List.range_succ, List.filterMap_append]
        simp [hcell]
      · intro y' x'
        rw [IBRD]
        by_cases hcase : y' = y ∧ x' = k
        · obtain ⟨h1, h2⟩ := hcase
          subst h1
          subst h2
          simp [hc]
        · by_cases h1 : y' = y ∧ x' < k
          · have h2 : y' = y ∧ x' < k + 1 := ⟨h1.1, by omega⟩
            simp [h1, h2]
          · have h2 : ¬(y' = y ∧ x' < k + 1) := by
              rintro ⟨hyy, hxx⟩
              by_cases hxe : x' = k
              · exact hcase ⟨hyy, hxe⟩
              · exact h1 ⟨hyy, by omega⟩
            simp [h1, h2]
      · intro x' p' hx' hcell'
        by_cases hxk : x' = k
        · subst hxk
          rw [hcell'] at hcell
          cases hcell
        · exact IP1 x' p' (by omega) hcell'
      · intro i hno
        exact IP2 i (fun x' p' hx' hc' => hno x' p' (by omega) hc')

theorem moveRow_char (y d : Nat) (s : RRState) (hsh : BoardShape s.board)
    (hy : y < BOARD_HEIGHT) (hd : 0 < d) (hyd : y + d < BOARD_HEIGHT)
    (hemp : ∀ x, x < BOARD_WIDTH → boardGet s.board (y + d) x = some none) :
    ∀ k, k ≤ BOARD_WIDTH →
      BoardShape ((List.range k).foldl (moveCell y d) s).board ∧
      ((List.range k).foldl (moveCell y d) s).rem = s.rem ∧
      ((List.range k).foldl (moveCell y d) s).drop = s.drop ∧
      ((List.range k).foldl (moveCell y d) s).removed = s.removed ∧
      (∀ y' x', boardGet ((List.range k).foldl (moveCell y d) s).board y' x'
        = if y' = y ∧ x' < k then some none
          else if y' = y + d ∧ x' < k then boardGet s.board y x'
          else boardGet s.board y' x') := by
  intro k
  induction k with
  | zero =>
    intro _
    refine ⟨hsh, rfl, rfl, rfl, ?_⟩
    intro y' x'
    simp
  | succ k ih =>
    intro hk1
    have hk : k ≤ BOARD_WIDTH := by omega
    have hklt : k < BOARD_WIDTH := by omega
    have hne0 : y ≠ y + d := by omega
    obtain ⟨ISH, IREM, IDROP, IRMV, IBRD⟩ := ih hk
    have hread : boardGet ((List.range k).foldl (moveCell y d) s).board y k
        = boardGet s.board y k := by
      rw [IBRD]
      simp [hne0]
    have hstep : (List.range (k + 1)).foldl (moveCell y d) s
        = moveCell y d ((List.range k).foldl (moveCell y d) s) k := by
      rw [List.range_succ, List.foldl_append]
      rfl
    obtain ⟨c, hc⟩ := boardGet_lt_isSome hsh hy hklt
    cases c with
    | some p =>
      have hcc : moveCell y d ((List.range k).foldl (moveCell y d) s) k
          = { (List.range k).foldl (moveCell y d) s with
              board := setCell (setCell ((List.range k).foldl (moveCell y d) s).board y k none)
                (y + d) k (some p),
              pos := pmInsert ((List.range k).foldl (moveCell y d) s).pos p.id (k, y + d) } := by
        rw [moveCell, hread, hc]
      rw [hstep, hcc]
      have ISH1 : BoardShape (setCell ((List.range k).foldl (moveCell y d) s).board y k none) :=
        setCell_shape ISH
      refine ⟨setCell_shape ISH1, IREM, IDROP, IRMV, ?_⟩
      intro y' x'
      show boardGet (setCell (setCell _ y k none) (y + d) k (some p)) y' x' = _
      by_cases hc1 : y' = y ∧ x' = k
      · obtain ⟨h1, h2⟩ := hc1
        subst h1
        subst h2
        rw [boardGet_setCell_ne (Or.inl hne0), boardGet_setCell_self ISH hy hklt]
        simp
      · by_cases hc2 : y' = y + d ∧ x' = k
        · obtain ⟨h1, h2⟩ := hc2
          subst h1
          subst h2
          rw [boardGet_setCell_self ISH1 hyd hklt]
          have hsym : y + d ≠ y := by omega
          simp [hsym, hc]
        · have hne1 : y' ≠ y + d ∨ x' ≠ k := by tauto
          have hne2 : y' ≠ y ∨ x' ≠ k := by tauto
          rw [boardGet_setCell_ne hne1, boardGet_setCell_ne hne2, IBRD]
          by_cases h1 : y' = y ∧ x' < k
          · have h2 : y' = y ∧ x' < k + 1 := ⟨h1.1, by omega⟩
            simp [h1, h2]
          · have h2 : ¬(y' = y ∧ x' < k + 1) := by
              rintro ⟨hyy, hxx⟩
              by_cases hxe : x' = k
              · exact hc1 ⟨hyy, hxe⟩
              · exact h1 ⟨hyy, by omega⟩
            by_cases h3 : y' = y + d ∧ x' < k
            · have h4 : y' = y + d ∧ x' < k + 1 := ⟨h3.1, by omega⟩
              simp [h1, h2, h3, h4]
            · have h4 : ¬(y' = y + d ∧ x' < k + 1) := by
                rintro ⟨hyy, hxx⟩
                by_cases hxe : x' = k
                · exact hc2 ⟨hyy, hxe⟩
                · exact h3 ⟨hyy, by omega⟩
              simp [h1, h2, h3, h4]
    | none =>
      have hcc : moveCell y d ((List.range k).foldl (moveCell y d) s) k
          = (List.range k).foldl (moveCell y d) s := by
        rw [moveCell, hread, hc]
      rw [hstep, hcc]
      refine ⟨ISH, IREM, IDROP, IRMV, ?_⟩
      intro y' x'
      rw [IBRD]
      by_cases hc1 : y' = y ∧ x' = k
      · obtain ⟨h1, h2⟩ := hc1
        rw [h1, h2]
        have h3 : ¬(y = y ∧ k < k) := by omega
        have h4 : ¬(y = y + d ∧ k < k) := by omega
        simp [h3, h4, hne0, hc]
      · by_cases hc2 : y' = y + d ∧ x' = k
        · obtain ⟨h1, h2⟩ := hc2
          rw [h1, h2]
          have hsym : y + d ≠ y := by omega
          have h5 : ¬(y + d = y + d ∧ k < k) := by omega
          simp [hsym, h5]
          rw [hemp k hklt, hc]
        · by_cases h1 : y' = y ∧ x' < k
          · have h2 : y' = y ∧ x' < k + 1 := ⟨h1.1, by omega⟩
            simp [h1, h2]
          · have h2 : ¬(y' = y ∧ x' < k + 1) := by
              rintro ⟨hyy, hxx⟩
              by_cases hxe : x' = k
              · exact hc1 ⟨hyy, hxe⟩
              · exact h1 ⟨hyy, by omega⟩
            by_cases h3 : y' = y + d ∧ x' < k
            · have h4 : y' = y + d ∧ x' < k + 1 := ⟨h3.1, by omega⟩
              simp [h1, h2, h3, h4]
            · have h4 : ¬(y' = y + d ∧ x' < k + 1) := by
                rintro ⟨hyy, hxx⟩
                by_cases hxe : x' = k
                · exact hc2 ⟨hyy, hxe⟩
                · exact h3 ⟨hyy, by omega⟩
              simp [h1, h2, h3, h4]

theorem moveRow_pos (y d : Nat) (s : RRState) (hsh : BoardShape s.board)
    (hy : y < BOARD_HEIGHT) (hd : 0 < d) (hyd : y + d < BOARD_HEIGHT)
    (hemp : ∀ x, x < BOARD_WIDTH → boardGet s.board (y + d) x = some none)
    (hnd : ∀ x1 x2 p1 p2, x1 < BOARD_WIDTH → x2 < BOARD_WIDTH →
      cellPt s.board y x1 = some p1 → cellPt s.board y x2 = some p2 →
      p1.id = p2.id → x1 = x2) :
    ∀ k, k ≤ BOARD_WIDTH →
      (∀ x' p, x' < k → cellPt s.board y x' = some p →
        ((List.range k).foldl (moveCell y d) s).pos p.id = some (x', y + d)) ∧
      (∀ i, (∀ x' p, x' < k → cellPt s.board y x' = some p → p.id ≠ i) →
        ((List.range k).foldl (moveCell y d) s).pos i = s.pos i) := by
  intro k
  induction k with
  | zero =>
    intro _
    refine ⟨?_, ?_⟩
    · intro x' p h
      omega
    · intro i _
      rfl
  | succ k ih =>
    intro hk1
    have hk : k ≤ BOARD_WIDTH := by omega
    have hklt : k < BOARD_WIDTH := by omega
    have hne0 : y ≠ y + d := by omega
    obtain ⟨IP1, IP2⟩ := ih hk
    obtain ⟨ISH, IREM, IDROP, IRMV, IBRD⟩ := moveRow_char y d s hsh hy hd hyd hemp k hk
    have hread : boardGet ((List.range k).foldl (moveCell y d) s).board y k
        = boardGet s.board y k := by
      rw [IBRD]
      simp [hne0]
    have hstep : (List.range (k + 1)).foldl (moveCell y d) s
        = moveCell y d ((List.range k).foldl (moveCell y d) s) k := by
      rw [List.range_succ, List.foldl_append]
      rfl
    obtain ⟨c, hc⟩ := boardGet_lt_isSome hsh hy hklt
    cases c with
    | some p =>
      have hcell : cellPt s.board y k = some p := by simp [cellPt, hc]
      have hcc : moveCell y d ((List.range k).foldl (moveCell y d) s) k
          = { (List.range k).foldl (moveCell y d) s with
              board := setCell (setCell ((List.range k).foldl (moveCell y d) s).board y k none)
                (y + d) k (some p),
              pos := pmInsert ((List.range k).foldl (moveCell y d) s).pos p.id (k, y + d) } := by
        rw [moveCell, hread, hc]
      rw [hstep, hcc]
      refine ⟨?_, ?_⟩
      · intro x' p' hx' hcell'
        show pmInsert ((List.range k).foldl (moveCell y d) s).pos p.id (k, y + d) p'.id = _
        by_cases hip : p'.id = p.id
        · have hxe : x' = k := hnd x' k p' p (by omega) hklt hcell' hcell hip
          subst hxe
          simp [pmInsert, hip]
        · have hxk : x' ≠ k := by
            intro he
            subst he
            rw [hcell'] at hcell
            injection hcell with hpe
            exact hip (by rw [hpe])
          have := IP1 x' p' (by omega) hcell'
          simp [pmInsert, hip, this]
      · intro i hno
        show pmInsert ((List.range k).foldl (moveCell y d) s).pos p.id (k, y + d) i = _
        have hpi : p.id ≠ i := hno k p (by omega) hcell
        have hip : ¬ (i = p.id) := fun h => hpi h.symm
        have hold := IP2 i (fun x' p' hx' hc' => hno x' p' (by omega) hc')
        simp [pmInsert, hip, hold]
    | none =>
      have hcell : cellPt s.board y k = none := by simp [cellPt, hc]
      have hcc : moveCell y d ((List.range k).foldl (moveCell y d) s) k
          = (List.range k).foldl (moveCell y d) s := by
        rw [moveCell, hread, hc]
      rw [hstep, hcc]
      refine ⟨?_, ?_⟩
      · intro x' p' hx' hcell'
        by_cases hxk : x' = k
        · subst hxk
          rw [hcell'] at hcell
          cases hcell
        · exact IP1 x' p' (by omega) hcell'
      · intro i hno
        exact IP2 i (fun x' p' hx' hc' => hno x' p' (by omega) hc')

attribute [irreducible] clearCell moveCell

theorem filter_lt_iff_succ_le (rows : List Nat) (n : Nat) :
    rows.filter (fun r => decide (n < r)) = rows.filter (fun r => decide (n + 1 ≤ r)) :=
  List.filter_congr' (fun b _ => by
    rw [decide_eq_decide]
    omega)

set_option maxHeartbeats 2000000 in
theorem rInv_step (b0 : Board) (rows : List Nat) (n : Nat) (s : RRState)
    (hsub : rows.Sublist (List.range BOARD_HEIGHT))
    (hfill : ∀ r ∈ rows, rowFilled b0 r = true)
    (hsh0 : BoardShape b0)
    (hn : n < BOARD_HEIGHT)
    (inv : RInv b0 rows (n + 1) s) :
    RInv b0 rows n (rowStep n s) := by
  have hp : rows.Pairwise (· < ·) :=
    List.Pairwise.sublist hsub (List.pairwise_lt_range BOARD_HEIGHT)
  have hbd : ∀ r ∈ rows, r < BOARD_HEIGHT := fun r hr =>
    List.mem_range.mp (hsub.subset hr)
  have hnd_rows : rows.Nodup := hp.imp (fun h => Nat.ne_of_lt h)
  by_cases hmem : n ∈ rows
  · -- n is a filled row: it is cleared.
    have hflt := filter_lt_succ_mem rows hp n hmem
    have hfge := filter_ge_mem rows hp n hmem
    have hcond : s.rem.head? = some n := by
      rw [inv.rem_eq, hflt, List.reverse_concat]
      rfl
    rw [rowStep, if_pos hcond]
    obtain ⟨CSH, CREM, CDROP, CRMV, CBRD, CP1, CP2⟩ :=
      clearRow_char n s inv.shape hn BOARD_WIDTH (le_refl _)
    have hroweq : ∀ x, x < BOARD_WIDTH → boardGet s.board n x = boardGet b0 n x :=
      fun x _ => inv.low n (by omega) x
    refine { shape := ?_, rem_eq := ?_, drop_eq := ?_, empt := ?_, low := ?_,
             high := ?_, rmvd := ?_, cnt := ?_ }
    · exact CSH
    · show (clearRow n s).rem.tail = _
      rw [clearRow, CREM, inv.rem_eq, hflt, List.reverse_concat]
      rfl
    · show (clearRow n s).drop + 1 = _
      rw [clearRow, CDROP, inv.drop_eq, hfge]
      rfl
    · intro y hy1 hy2 x hx
      show boardGet (clearRow n s).board y x = some none
      rw [clearRow, CBRD]
      by_cases hyn : y = n
      · simp [hyn, hx]
      · have : ¬(y = n ∧ x < BOARD_WIDTH) := by tauto
        rw [if_neg this]
        have hdr : (clearRow n s).drop + 1 = s.drop + 1 := by rw [clearRow, CDROP]
        exact inv.empt y (by omega) (by
          have : y < n + ((clearRow n s).drop + 1) := hy2
          rw [hdr] at this
          omega) x hx
    · intro y hy x
      show boardGet (clearRow n s).board y x = _
      rw [clearRow, CBRD]
      have : ¬(y = n ∧ x < BOARD_WIDTH) := by
        rintro ⟨he, _⟩
        omega
      rw [if_neg this]
      exact inv.low y (by omega) x
    · intro y hy1 hy2 hnot x hx
      show boardGet (clearRow n s).board (tauShift rows y) x = _
      rw [clearRow, CBRD]
      have hyn : y ≠ n := fun he => hnot (he ▸ hmem)
      have htau : tauShift rows y ≠ n := by
        rw [tauShift]
        omega
      have : ¬(tauShift rows y = n ∧ x < BOARD_WIDTH) := by tauto
      rw [if_neg this]
      exact inv.high y (by omega) hy2 hnot x hx
    · show (clearRow n s).removed = _
      rw [clearRow, CRMV, inv.rmvd, hfge, List.reverse_cons, List.flatMap_append]
      have hrp : (List.range BOARD_WIDTH).filterMap (cellPt s.board n) = rowPoints b0 n := by
        show rowPoints s.board n = rowPoints b0 n
        exact rowPoints_congr hroweq
      rw [hrp]
      simp
    · show countB b0 = countB (clearRow n s).board + BOARD_WIDTH * _
      have hcc : countB (clearRow n s).board + (rowPoints s.board n).length
          = countB s.board := by
        rw [countB, countB]
        apply sumRange_clear (fun z => (rowPoints s.board z).length)
          (fun z => (rowPoints (clearRow n s).board z).length) BOARD_HEIGHT n hn
        · intro z hz hzn
          apply congrArg List.length
          apply rowPoints_congr
          intro x hx
          rw [clearRow, CBRD]
          have : ¬(z = n ∧ x < BOARD_WIDTH) := by tauto
          rw [if_neg this]
        · have hnil : rowPoints (clearRow n s).board n = [] := by
            apply rowPoints_nil_of_empty
            intro x hx
            rw [clearRow, CBRD]
            simp [hx]
          rw [hnil]
          rfl
      have hlen : (rowPoints s.board n).length = BOARD_WIDTH := by
        rw [rowPoints_congr hroweq]
        exact rowPoints_len_filled hsh0 hn (hfill n hmem)
      have hcnt := inv.cnt
      rw [hfge]
      simp only [List.length_cons]
      rw [Nat.mul_add, Nat.mul_one] at *
      omega
  · -- n is not a filled row.
    have hflt := filter_lt_succ_not_mem rows n hmem
    have hfge := filter_ge_not_mem rows n hmem
    have hcond : ¬ (s.rem.head? = some n) := by
      rw [inv.rem_eq]
      exact head_reverse_filter_ne rows n hmem _
    rw [rowStep, if_neg hcond]
    by_cases hdrop : 0 < s.drop
    · -- shift row n down by s.drop.
      rw [if_pos hdrop]
      have hydlt : n + s.drop < BOARD_HEIGHT := by
        have hnodup : (rows.filter (fun r => decide (n + 1 ≤ r))).Nodup :=
          List.Nodup.filter _ hnd_rows
        have hlen := nodup_length_le (rows.filter (fun r => decide (n + 1 ≤ r)))
          (n + 1) BOARD_HEIGHT hnodup (fun r hr => by
            have hmr := List.mem_of_mem_filter hr
            have := List.of_mem_filter hr
            simp at this
            exact ⟨this, hbd r hmr⟩)
        have := inv.drop_eq
        omega
      have hemp : ∀ x, x < BOARD_WIDTH → boardGet s.board (n + s.drop) x = some none :=
        fun x hx => inv.empt (n + s.drop) (by omega) (by omega) x hx
      obtain ⟨MSH, MREM, MDROP, MRMV, MBRD⟩ :=
        moveRow_char n s.drop s inv.shape hn hdrop hydlt hemp BOARD_WIDTH (le_refl _)
      have hdr_eq : (rows.filter (fun r => decide (n < r))).length = s.drop := by
        rw [filter_lt_iff_succ_le, ← inv.drop_eq]
      refine { shape := ?_, rem_eq := ?_, drop_eq := ?_, empt := ?_, low := ?_,
               high := ?_, rmvd := ?_, cnt := ?_ }
      · exact MSH
      · show (moveRow n s.drop s).rem = _
        rw [moveRow, MREM, inv.rem_eq, hflt]
      · show (moveRow n s.drop s).drop = _
        rw [moveRow, MDROP, inv.drop_eq, hfge]
      · intro y hy1 hy2 x hx
        show boardGet (moveRow n s.drop s).board y x = some none
        rw [moveRow, MBRD]
        have hydr : (moveRow n s.drop s).drop = s.drop := by rw [moveRow, MDROP]
        rw [hydr] at hy2
        by_cases hyn : y = n
        · simp [hyn, hx]
        · have h1 : ¬(y = n ∧ x < BOARD_WIDTH) := by tauto
          have h2 : ¬(y = n + s.drop ∧ x < BOARD_WIDTH) := by
            rintro ⟨he, _⟩
            omega
          rw [if_neg h1, if_neg h2]
          exact inv.empt y (by omega) (by omega) x hx
      · intro y hy x
        show boardGet (moveRow n s.drop s).board y x = _
        rw [moveRow, MBRD]
        have h1 : ¬(y = n ∧ x < BOARD_WIDTH) := by
          rintro ⟨he, _⟩
          omega
        have h2 : ¬(y = n + s.drop ∧ x < BOARD_WIDTH) := by
          rintro ⟨he, _⟩
          omega
        rw [if_neg h1, if_neg h2]
        exact inv.low y (by omega) x
      · intro y hy1 hy2 hnot x hx
        show boardGet (moveRow n s.drop s).board (tauShift rows y) x = _
        rw [moveRow, MBRD]
        by_cases hyn : y = n
        · rw [hyn]
          have htau : tauShift rows n = n + s.drop := by
            rw [tauShift, hdr_eq]
          rw [htau]
          have h1 : ¬(n + s.drop = n ∧ x < BOARD_WIDTH) := by
            rintro ⟨he, _⟩
            omega
          rw [if_neg h1, if_pos ⟨rfl, hx⟩]
          exact inv.low n (by omega) x
        · have hyn1 : n + 1 ≤ y := by omega
          have hmid : (rows.filter (fun r =>
              decide (n + 1 ≤ r) && decide (r ≤ y))).length + n < y := by
            have hnodup : (rows.filter (fun r =>
                decide (n + 1 ≤ r) && decide (r ≤ y))).Nodup :=
              List.Nodup.filter _ hnd_rows
            have hlen := nodup_length_le (rows.filter (fun r =>
                decide (n + 1 ≤ r) && decide (r ≤ y)))
              (n + 1) y hnodup (fun r hr => by
                have hmr := List.mem_of_mem_filter hr
                have hpr := List.of_mem_filter hr
                simp only [Bool.and_eq_true, decide_eq_true_eq] at hpr
                have hry : r ≠ y := fun he => hnot (he ▸ hmr)
                exact ⟨hpr.1, by omega⟩)
            omega
          have hsplit := length_filter_split rows
            (fun r => decide (n + 1 ≤ r)) (fun r => decide (r ≤ y))
          have htail : (rows.filter (fun r =>
              decide (n + 1 ≤ r) && !decide (r ≤ y))).length
              = (rows.filter (fun r => decide (y < r))).length := by
            apply congrArg List.length
            apply List.filter_congr'
            intro r _
            by_cases hcase : y < r
            · have c1 : decide (n + 1 ≤ r) = true := decide_eq_true (by omega)
              have c2 : decide (r ≤ y) = false := decide_eq_false (by omega)
              have c3 : decide (y < r) = true := decide_eq_true hcase
              rw [c1, c2, c3]
              rfl
            · have c3 : decide (y < r) = false := decide_eq_false hcase
              by_cases hr1 : n + 1 ≤ r
              · have c1 : decide (n + 1 ≤ r) = true := decide_eq_true hr1
                have c2 : decide (r ≤ y) = true := decide_eq_true (by omega)
                rw [c1, c2, c3]
                rfl
              · have c1 : decide (n + 1 ≤ r) = false := decide_eq_false hr1
                rw [c1, c3]
                rfl
          have htau_big : n + s.drop < tauShift rows y := by
            rw [tauShift]
            have hde := inv.drop_eq
            omega
          have h1 : ¬(tauShift rows y = n ∧ x < BOARD_WIDTH) := by
            rintro ⟨he, _⟩
            omega
          have h2 : ¬(tauShift rows y = n + s.drop ∧ x < BOARD_WIDTH) := by
            rintro ⟨he, _⟩
            omega
          rw [if_neg h1, if_neg h2]
          exact inv.high y (by omega) hy2 hnot x hx
      · show (moveRow n s.drop s).removed = _
        rw [moveRow, MRMV, inv.rmvd, hfge]
      · show countB b0 = countB (moveRow n s.drop s).board + _
        have hpres : countB (moveRow n s.drop s).board = countB s.board := by
          rw [countB, countB]
          apply sumRange_move2 (fun z => (rowPoints s.board z).length)
            (fun z => (rowPoints (moveRow n s.drop s).board z).length)
            BOARD_HEIGHT n (n + s.drop) hn hydlt (by omega)
          · intro z hz hzn hznd
            apply congrArg List.length
            apply rowPoints_congr
            intro x hx
            rw [moveRow, MBRD]
            have e1 : ¬(z = n ∧ x < BOARD_WIDTH) := by tauto
            have e2 : ¬(z = n + s.drop ∧ x < BOARD_WIDTH) := by tauto
            rw [if_neg e1, if_neg e2]
          · have hnil : rowPoints (moveRow n s.drop s).board n = [] := by
              apply rowPoints_nil_of_empty
              intro x hx
              rw [moveRow, MBRD]
              simp [hx]
            rw [hnil]
            rfl
          · apply congrArg List.length
            apply rowPoints_congr
            intro x hx
            rw [moveRow, MBRD]
            have e1 : ¬(n + s.drop = n ∧ x < BOARD_WIDTH) := by
              rintro ⟨he, _⟩
              omega
            rw [if_neg e1, if_pos ⟨rfl, hx⟩]
          · have hnil : rowPoints s.board (n + s.drop) = [] :=
              rowPoints_nil_of_empty hemp
            rw [hnil]
            rfl
        rw [hpres, inv.cnt, hfge]
    · -- nothing to do at this row.
      rw [if_neg hdrop]
      have hd0 : s.drop = 0 := by omega
      refine { shape := inv.shape, rem_eq := ?_, drop_eq := ?_, empt := ?_, low := ?_,
               high := ?_, rmvd := ?_, cnt := ?_ }
      · rw [inv.rem_eq, hflt]
      · rw [inv.drop_eq, hfge]
      · intro y hy1 hy2 x hx
        exact inv.empt y (by omega) (by omega) x hx
      · intro y hy x
        exact inv.low y (by omega) x
      · intro y hy1 hy2 hnot x hx
        by_cases hyn : y = n
        · subst hyn
          have htau : tauShift rows y = y := by
            rw [tauShift, filter_lt_iff_succ_le, ← inv.drop_eq, hd0]
            omega
          rw [htau]
          exact inv.low y (by omega) x
        · exact inv.high y (by omega) hy2 hnot x hx
      · rw [inv.rmvd, hfge]
      · rw [inv.cnt, hfge]

theorem filter_false_nil (l : List Nat) (p : Nat → Bool) (h : ∀ a ∈ l, p a = false) :
    l.filter p = [] := by
  rw [List.filter_eq_nil_iff]
  intro a ha
  simp [h a ha]

theorem rInv_init (b0 : Board) (m : PosMap) (rows : List Nat)
    (hbd : ∀ r ∈ rows, r < BOARD_HEIGHT) (hsh0 : BoardShape b0) :
    RInv b0 rows BOARD_HEIGHT
      { board := b0, pos := m, removed := [], rem := rows.reverse, drop := 0 } := by
  have hlt : rows.filter (fun r => decide (r < BOARD_HEIGHT)) = rows :=
    List.filter_eq_self.mpr (fun r hr => decide_eq_true (hbd r hr))
  have hge : rows.filter (fun r => decide (BOARD_HEIGHT ≤ r)) = [] :=
    filter_false_nil _ _ (fun r hr => decide_eq_false (by have := hbd r hr; omega))
  refine { shape := hsh0, rem_eq := ?_, drop_eq := ?_, empt := ?_, low := ?_,
           high := ?_, rmvd := ?_, cnt := ?_ }
  · show rows.reverse = _
    rw [hlt]
  · show 0 = _
    rw [hge]
    rfl
  · intro y hy1 hy2 x hx
    have hy0 : y < BOARD_HEIGHT + 0 := hy2
    exact absurd hy0 (by omega)
  · intro y hy x
    rfl
  · intro y hy1 hy2 hnot x hx
    exact absurd hy2 (by omega)
  · show ([] : List Point) = _
    rw [hge]
    rfl
  · show countB b0 = _
    rw [hge]
    simp

theorem rInv_run (b0 : Board) (rows : List Nat)
    (hsub : rows.Sublist (List.range BOARD_HEIGHT))
    (hfill : ∀ r ∈ rows, rowFilled b0 r = true)
    (hsh0 : BoardShape b0) :
    ∀ n, n ≤ BOARD_HEIGHT → ∀ s, RInv b0 rows n s → RInv b0 rows 0 (removeRowsGo n s) := by
  intro n
  induction n with
  | zero =>
    intro _ s h
    exact h
  | succ n ih =>
    intro hn s h
    rw [removeRowsGo]
    exact ih (by omega) (rowStep n s) (rInv_step b0 rows n s hsub hfill hsh0 (by omega) h)

/-- C3: for every well-shaped board, running remove_rows on the filled
rows found by find_filled_rows shifts every row above all cleared rows
down by exactly the number of cleared rows, leaves every row below all
cleared rows unchanged, and decreases the locked-point count by exactly
(number of cleared rows) * BOARD_WIDTH. -/
theorem c3_remove_rows_compaction (b : Board) (m : PosMap) (hsh : BoardShape b) :
    c3Post b m := by
  have hsub : (findFilledRows b).Sublist (List.range BOARD_HEIGHT) :=
    List.filter_sublist _
  have hfill : ∀ r ∈ findFilledRows b, rowFilled b r = true :=
    fun r hr => List.of_mem_filter hr
  have hbd : ∀ r ∈ findFilledRows b, r < BOARD_HEIGHT :=
    fun r hr => List.mem_range.mp (hsub.subset hr)
  have hrun := rInv_run b (findFilledRows b) hsub hfill hsh BOARD_HEIGHT (le_refl _)
    { board := b, pos := m, removed := [], rem := (findFilledRows b).reverse, drop := 0 }
    (rInv_init b m (findFilledRows b) hbd hsh)
  refine ⟨?_, ?_, ?_⟩
  · intro y hy hlt x hx
    have hnot : y ∉ findFilledRows b := fun hm => absurd (hlt y hm) (lt_irrefl y)
    have hfeq : (findFilledRows b).filter (fun r => decide (y < r)) = findFilledRows b :=
      List.filter_eq_self.mpr (fun r hr => decide_eq_true (hlt r hr))
    have hhigh := hrun.high y (Nat.zero_le y) hy hnot x hx
    rw [tauShift, hfeq] at hhigh
    exact hhigh
  · intro y hy hgt x hx
    have hnot : y ∉ findFilledRows b := fun hm => absurd (hgt y hm) (lt_irrefl y)
    have hfeq : (findFilledRows b).filter (fun r => decide (y < r)) = [] :=
      filter_false_nil _ _ (fun r hr => decide_eq_false (by have := hgt r hr; omega))
    have hhigh := hrun.high y (Nat.zero_le y) hy hnot x hx
    rw [tauShift, hfeq] at hhigh
    simpa using hhigh
  · have hcnt := hrun.cnt
    have hfeq : (findFilledRows b).filter (fun r => decide (0 ≤ r)) = findFilledRows b :=
      List.filter_eq_self.mpr (fun r _ => decide_eq_true (Nat.zero_le r))
    rw [hfeq] at hcnt
    rw [Nat.mul_comm (findFilledRows b).length BOARD_WIDTH]
    exact hcnt

theorem c3_witness : BoardShape emptyBoard ∧ c3Post emptyBoard (fun _ => none) :=
  ⟨⟨rfl, by decide⟩, c3_remove_rows_compaction emptyBoard (fun _ => none) ⟨rfl, by decide⟩⟩

theorem lockGo_shape (blk : Block) (bp : Position) :
    ∀ ps b m b1 m1, lockGo blk bp b m ps = .ok (b1, m1) → BoardShape b → BoardShape b1 := by
  intro ps
  induction ps with
  | nil =>
    intro b m b1 m1 h hsh
    rw [lockGo] at h
    injection h with h1
    injection h1 with h2 h3
    rw [← h2]
    exact hsh
  | cons p rest ih =>
    intro b m b1 m1 h hsh
    cases hlp : blk.get_point_position p.id with
    | none =>
      rw [lockGo, hlp] at h
      exact Except.noConfusion h
    | some lp =>
      rw [lockGo, hlp] at h
      have h2 : (match boardGet b (add_positions bp lp).2 (add_positions bp lp).1 with
          | none => (.error .oob : Except Err (Board × PosMap))
          | some (some _) => .error .assertFail
          | some none => lockGo blk bp
              (setCell b (add_positions bp lp).2 (add_positions bp lp).1 (some p))
              (pmInsert m p.id ((add_positions bp lp).1, (add_positions bp lp).2)) rest)
          = .ok (b1, m1) := h
      cases hbg : boardGet b (add_positions bp lp).2 (add_positions bp lp).1 with
      | none =>
        rw [hbg] at h2
        exact Except.noConfusion h2
      | some c =>
        cases c with
        | none =>
          rw [hbg] at h2
          exact ih _ _ _ _ h2 (setCell_shape hsh)
        | some q =>
          rw [hbg] at h2
          exact Except.noConfusion h2

theorem removeRows_rinv (b : Board) (m : PosMap) (hsh : BoardShape b) :
    RInv b (findFilledRows b) 0 (removeRows b m (findFilledRows b)) := by
  have hsub : (findFilledRows b).Sublist (List.range BOARD_HEIGHT) :=
    List.filter_sublist _
  have hfill : ∀ r ∈ findFilledRows b, rowFilled b r = true :=
    fun r hr => List.of_mem_filter hr
  have hbd : ∀ r ∈ findFilledRows b, r < BOARD_HEIGHT :=
    fun r hr => List.mem_range.mp (hsub.subset hr)
  rw [removeRows]
  exact rInv_run b (findFilledRows b) hsub hfill hsh BOARD_HEIGHT (le_refl _)
    { board := b, pos := m, removed := [], rem := (findFilledRows b).reverse, drop := 0 }
    (rInv_init b m (findFilledRows b) hbd hsh)

theorem removeRows_removed (b : Board) (m : PosMap) (hsh : BoardShape b) :
    (removeRows b m (findFilledRows b)).removed
      = (findFilledRows b).reverse.flatMap (rowPoints b) := by
  have h := (removeRows_rinv b m hsh).rmvd
  rw [List.filter_eq_self.mpr (fun r _ => decide_eq_true (Nat.zero_le r))] at h
  exact h

theorem tickInner_sound0 (g : Game) (a : Acts) (bt : BlockType) (g2 : Game)
    (evs : List TickChange) (hsh : BoardShape g.board)
    (h : tickInner g a bt = .ok (g2, evs)) :
    BoardShape g2.board ∧
    (evs = [] ∨ ∃ blk3 bp3 b1 m1,
      lockGo blk3 bp3 g.board g.points_pos blk3.points = .ok (b1, m1) ∧
      BoardShape b1 ∧
      evs = TickChange.blockLocked ::
        ((findFilledRows b1).reverse.flatMap (rowPoints b1)).map
          (fun p => TickChange.pointRemoved p.id) ++ [TickChange.newBlock]) := by
  simp only [tickInner] at h
  split at h
  · exact Except.noConfusion h
  rename_i bp1 heq1
  split at h
  · exact Except.noConfusion h
  rename_i bp2 heq2
  split at h
  · exact Except.noConfusion h
  rename_i blk3 bp3 heq3
  by_cases htr : (tickAndRestartIfElapsed g.drop_timer
      (if a.fast_drop = true then fast_drop_speed else drop_speed)).1 = true
  · rw [if_pos htr] at h
    by_cases hedge : bp3.2 + blk3.height = BOARD_HEIGHT - 1
    · rw [if_pos hedge] at h
      cases hLG : lockGo blk3 bp3 g.board g.points_pos blk3.points with
      | error e =>
        rw [hLG] at h
        exact Except.noConfusion h
      | ok bm =>
        rw [hLG] at h
        have h1 := Except.ok.inj h
        injection h1 with hg he
        subst hg
        subst he
        have hshb1 : BoardShape bm.1 := lockGo_shape blk3 bp3 _ _ _ _ _ hLG hsh
        constructor
        · exact (removeRows_rinv bm.1 bm.2 hshb1).shape
        · right
          refine ⟨blk3, bp3, bm.1, bm.2, hLG, hshb1, ?_⟩
          rw [removeRows_removed bm.1 bm.2 hshb1]
    · rw [if_neg hedge] at h
      cases hBC : isBlockCollides g.board (ppValues blk3.points_pos) (bp3.1, bp3.2 + 1) with
      | error e =>
        rw [hBC] at h
        exact Except.noConfusion h
      | ok c =>
        rw [hBC] at h
        cases c with
        | false =>
          have h1 := Except.ok.inj h
          injection h1 with hg he
          subst hg
          subst he
          exact ⟨hsh, Or.inl rfl⟩
        | true =>
          cases hLG : lockGo blk3 bp3 g.board g.points_pos blk3.points with
          | error e =>
            rw [hLG] at h
            exact Except.noConfusion h
          | ok bm =>
            rw [hLG] at h
            have h1 := Except.ok.inj h
            injection h1 with hg he
            subst hg
            subst he
            have hshb1 : BoardShape bm.1 := lockGo_shape blk3 bp3 _ _ _ _ _ hLG hsh
            constructor
            · exact (removeRows_rinv bm.1 bm.2 hshb1).shape
            · right
              refine ⟨blk3, bp3, bm.1, bm.2, hLG, hshb1, ?_⟩
              rw [removeRows_removed bm.1 bm.2 hshb1]
  · rw [if_neg htr] at h
    injection h with h1
    injection h1 with hg he
    subst hg
    subst he
    exact ⟨hsh, Or.inl rfl⟩

theorem tick_sound0 (g : Game) (raw : RawInput) (bt : BlockType) (g' : Game)
    (evs : List TickChange) (hsh : BoardShape g.board)
    (h : tick g raw bt = .ok (g', evs)) :
    BoardShape g'.board ∧
    (evs = [] ∨ ∃ blk3 bp3 b1 m1,
      lockGo blk3 bp3 g.board g.points_pos blk3.points = .ok (b1, m1) ∧
      BoardShape b1 ∧
      evs = TickChange.blockLocked ::
        ((findFilledRows b1).reverse.flatMap (rowPoints b1)).map
          (fun p => TickChange.pointRemoved p.id) ++ [TickChange.newBlock]) := by
  simp only [tick] at h
  split at h
  · exact Except.noConfusion h
  rename_i r heq
  injection h with h1
  injection h1 with hg he
  subst hg
  subst he
  have hs := tickInner_sound0 g (actsOf (smartInputTick g.input raw)) bt r.1 r.2 hsh heq
  exact ⟨hs.1, hs.2⟩

theorem reachable_shape {g : Game} (h : Reachable g) : BoardShape g.board := by
  induction h with
  | init bt => exact show BoardShape emptyBoard from ⟨rfl, by decide⟩
  | step hr htick ih => exact (tick_sound0 _ _ _ _ _ ih htick).1

/-- C4: on any reachable state, a successful tick returns either the
empty event list (no lock this frame) or exactly one blockLocked,
followed by the pointRemoved events for the points of the cleared filled
rows of the just-locked board — rows enumerated bottom-to-top (the
ascending findFilledRows list reversed) and, within each row, cells
left-to-right (rowPoints scans x = 0 .. BOARD_WIDTH - 1) — followed by
exactly one newBlock. -/
theorem c4_tick_events (g : Game) (raw : RawInput) (bt : BlockType) (g' : Game)
    (evs : List TickChange) (hg : Reachable g)
    (h : tick g raw bt = .ok (g', evs)) :
    evs = [] ∨ ∃ blk3 bp3 b1 m1,
      lockGo blk3 bp3 g.board g.points_pos blk3.points = .ok (b1, m1) ∧
      evs = TickChange.blockLocked ::
        ((findFilledRows b1).reverse.flatMap (rowPoints b1)).map
          (fun p => TickChange.pointRemoved p.id) ++ [TickChange.newBlock] := by
  have hs := tick_sound0 g raw bt g' evs (reachable_shape hg) h
  rcases hs.2 with he | ⟨blk3, bp3, b1, m1, hLG, _, hevs⟩
  · exact Or.inl he
  · exact Or.inr ⟨blk3, bp3, b1, m1, hLG, hevs⟩

theorem c4_witness :
    Reachable (Game.new BlockType.I) ∧
    ∃ g' evs, tick (Game.new BlockType.I) rawNone BlockType.I = .ok (g', evs) ∧
      (evs = [] ∨ ∃ blk3 bp3 b1 m1,
        lockGo blk3 bp3 (Game.new BlockType.I).board (Game.new BlockType.I).points_pos
          blk3.points = .ok (b1, m1) ∧
        evs = TickChange.blockLocked ::
          ((findFilledRows b1).reverse.flatMap (rowPoints b1)).map
            (fun p => TickChange.pointRemoved p.id) ++ [TickChange.newBlock]) :=
  ⟨Reachable.init BlockType.I,
   _, _, rfl,
   c4_tick_events (Game.new BlockType.I) rawNone BlockType.I _ _
     (Reachable.init BlockType.I) rfl⟩

theorem cellPt_some {b : Board} {y x : Nat} {p : Point} :
    cellPt b y x = some p ↔ boardGet b y x = some (some p) := by
  unfold cellPt
  cases h : boardGet b y x with
  | none => simp
  | some c =>
    cases c with
    | none => simp
    | some q => simp

theorem rowStep_agree (K n : Nat) (s : RRState) (hsh : BoardShape s.board)
    (hn : n < BOARD_HEIGHT)
    (hempr : 0 < s.drop → n + s.drop < BOARD_HEIGHT ∧
      ∀ x, x < BOARD_WIDTH → boardGet s.board (n + s.drop) x = some none)
    (hagree : Agree s.board s.pos)
    (hltK : ∀ y x p, boardGet s.board y x = some (some p) → p.id < K) :
    Agree (rowStep n s).board (rowStep n s).pos ∧
    (∀ y x p, boardGet (rowStep n s).board y x = some (some p) → p.id < K) := by
  by_cases hcond : s.rem.head? = some n
  · rw [rowStep, if_pos hcond]
    show Agree ((List.range BOARD_WIDTH).foldl (clearCell n) s).board
        ((List.range BOARD_WIDTH).foldl (clearCell n) s).pos ∧
      (∀ y x p, boardGet ((List.range BOARD_WIDTH).foldl (clearCell n) s).board y x
        = some (some p) → p.id < K)
    obtain ⟨CSH, CREM, CDROP, CRMV, CBRD, CP1, CP2⟩ :=
      clearRow_char n s hsh hn BOARD_WIDTH (le_refl _)
    constructor
    · intro i x y
      by_cases hrow : ∃ x0, x0 < BOARD_WIDTH ∧ ∃ p0, cellPt s.board n x0 = some p0 ∧ p0.id = i
      · obtain ⟨x0, hx0, p0, hp0, hpi⟩ := hrow
        have hpos' : ((List.range BOARD_WIDTH).foldl (clearCell n) s).pos i = none := by
          rw [← hpi]
          exact CP1 x0 p0 hx0 hp0
        have h0 : s.pos i = some (x0, n) := (hagree i x0 n).mp ⟨p0, cellPt_some.mp hp0, hpi⟩
        constructor
        · rintro ⟨p, hp, hpid⟩
          rw [CBRD] at hp
          by_cases hc : y = n ∧ x < BOARD_WIDTH
          · rw [if_pos hc] at hp
            exact absurd hp (by simp)
          · rw [if_neg hc] at hp
            have h1 : s.pos i = some (x, y) := (hagree i x y).mp ⟨p, hp, hpid⟩
            rw [h0] at h1
            injection h1 with h2
            injection h2 with hxe hye
            exact absurd ⟨hye.symm, hxe ▸ hx0⟩ hc
        · intro hm
          rw [hpos'] at hm
          exact absurd hm (by simp)
      · have hfresh : ∀ x' p, x' < BOARD_WIDTH → cellPt s.board n x' = some p → p.id ≠ i :=
          fun x' p hx' hp hpi => hrow ⟨x', hx', p, hp, hpi⟩
        have hpos' : ((List.range BOARD_WIDTH).foldl (clearCell n) s).pos i = s.pos i :=
          CP2 i hfresh
        constructor
        · rintro ⟨p, hp, hpid⟩
          rw [CBRD] at hp
          by_cases hc : y = n ∧ x < BOARD_WIDTH
          · rw [if_pos hc] at hp
            exact absurd hp (by simp)
          · rw [if_neg hc] at hp
            rw [hpos']
            exact (hagree i x y).mp ⟨p, hp, hpid⟩
        · intro hm
          rw [hpos'] at hm
          obtain ⟨p, hpO, hpid⟩ := (hagree i x y).mpr hm
          by_cases hc : y = n ∧ x < BOARD_WIDTH
          · exact absurd hpid (hfresh x p hc.2
              (cellPt_some.mpr (hc.1 ▸ hpO)))
          · refine ⟨p, ?_, hpid⟩
            rw [CBRD, if_neg hc]
            exact hpO
    · intro y x p hp
      rw [CBRD] at hp
      by_cases hc : y = n ∧ x < BOARD_WIDTH
      · rw [if_pos hc] at hp
        exact absurd hp (by simp)
      · rw [if_neg hc] at hp
        exact hltK y x p hp
  · rw [rowStep, if_neg hcond]
    by_cases hdrop : 0 < s.drop
    · rw [if_pos hdrop]
      obtain ⟨hyd, hemp⟩ := hempr hdrop
      show Agree ((List.range BOARD_WIDTH).foldl (moveCell n s.drop) s).board
          ((List.range BOARD_WIDTH).foldl (moveCell n s.drop) s).pos ∧
        (∀ y x p, boardGet ((List.range BOARD_WIDTH).foldl (moveCell n s.drop) s).board y x
          = some (some p) → p.id < K)
      have hnd : ∀ x1 x2 p1 p2, x1 < BOARD_WIDTH → x2 < BOARD_WIDTH →
          cellPt s.board n x1 = some p1 → cellPt s.board n x2 = some p2 →
          p1.id = p2.id → x1 = x2 := by
        intro x1 x2 p1 p2 hx1 hx2 hc1 hc2 hid
        have h1 := (hagree p1.id x1 n).mp ⟨p1, cellPt_some.mp hc1, rfl⟩
        have h2 := (hagree p1.id x2 n).mp ⟨p2, cellPt_some.mp hc2, hid.symm⟩
        rw [h1] at h2
        injection h2 with h3
        exact congrArg Prod.fst h3
      obtain ⟨MSH, MREM, MDROP, MRMV, MBRD⟩ :=
        moveRow_char n s.drop s hsh hn hdrop hyd hemp BOARD_WIDTH (le_refl _)
      obtain ⟨MP1, MP2⟩ :=
        moveRow_pos n s.drop s hsh hn hdrop hyd hemp hnd BOARD_WIDTH (le_refl _)
      have hnen : n + s.drop ≠ n := by omega
      constructor
      · intro i x y
        by_cases hrow : ∃ x0, x0 < BOARD_WIDTH ∧ ∃ p0, cellPt s.board n x0 = some p0 ∧ p0.id = i
        · obtain ⟨x0, hx0, p0, hp0, hpi⟩ := hrow
          have hpos' : ((List.range BOARD_WIDTH).foldl (moveCell n s.drop) s).pos i
              = some (x0, n + s.drop) := by
            rw [← hpi]
            exact MP1 x0 p0 hx0 hp0
          have h0 : s.pos i = some (x0, n) := (hagree i x0 n).mp ⟨p0, cellPt_some.mp hp0, hpi⟩
          constructor
          · rintro ⟨p, hp, hpid⟩
            rw [MBRD] at hp
            by_cases hc : y = n ∧ x < BOARD_WIDTH
            · rw [if_pos hc] at hp
              exact absurd hp (by simp)
            · rw [if_neg hc] at hp
              by_cases hc2 : y = n + s.drop ∧ x < BOARD_WIDTH
              · rw [if_pos hc2] at hp
                have h1 : s.pos i = some (x, n) := (hagree i x n).mp ⟨p, hp, hpid⟩
                rw [h0] at h1
                injection h1 with h2
                injection h2 with hxe hye
                rw [hpos', hc2.1, ← hxe]
              · rw [if_neg hc2] at hp
                have h1 : s.pos i = some (x, y) := (hagree i x y).mp ⟨p, hp, hpid⟩
                rw [h0] at h1
                injection h1 with h2
                injection h2 with hxe hye
                exact absurd ⟨hye.symm, hxe ▸ hx0⟩ hc
          · intro hm
            rw [hpos'] at hm
            injection hm with h2
            injection h2 with hxe hye
            refine ⟨p0, ?_, hpi⟩
            rw [MBRD, ← hxe, ← hye]
            rw [if_neg (fun hc => hnen hc.1), if_pos ⟨rfl, hx0⟩]
            exact cellPt_some.mp hp0
        · have hfresh : ∀ x' p, x' < BOARD_WIDTH → cellPt s.board n x' = some p → p.id ≠ i :=
            fun x' p hx' hp hpi => hrow ⟨x', hx', p, hp, hpi⟩
          have hpos' : ((List.range BOARD_WIDTH).foldl (moveCell n s.drop) s).pos i = s.pos i :=
            MP2 i hfresh
          constructor
          · rintro ⟨p, hp, hpid⟩
            rw [MBRD] at hp
            by_cases hc : y = n ∧ x < BOARD_WIDTH
            · rw [if_pos hc] at hp
              exact absurd hp (by simp)
            · rw [if_neg hc] at hp
              by_cases hc2 : y = n + s.drop ∧ x < BOARD_WIDTH
              · rw [if_pos hc2] at hp
                exact absurd hpid (hfresh x p hc2.2 (cellPt_some.mpr hp))
              · rw [if_neg hc2] at hp
                rw [hpos']
                exact (hagree i x y).mp ⟨p, hp, hpid⟩
          · intro hm
            rw [hpos'] at hm
            obtain ⟨p, hpO, hpid⟩ := (hagree i x y).mpr hm
            by_cases hc : y = n ∧ x < BOARD_WIDTH
            · exact absurd hpid (hfresh x p hc.2 (cellPt_some.mpr (hc.1 ▸ hpO)))
            · by_cases hc2 : y = n + s.drop ∧ x < BOARD_WIDTH
              · have := hemp x hc2.2
                rw [hc2.1] at hpO
                rw [this] at hpO
                exact absurd hpO (by simp)
              · refine ⟨p, ?_, hpid⟩
                rw [MBRD, if_neg hc, if_neg hc2]
                exact hpO
      · intro y x p hp
        rw [MBRD] at hp
        by_cases hc : y = n ∧ x < BOARD_WIDTH
        · rw [if_pos hc] at hp
          exact absurd hp (by simp)
        · rw [if_neg hc] at hp
          by_cases hc2 : y = n + s.drop ∧ x < BOARD_WIDTH
          · rw [if_pos hc2] at hp
            exact hltK n x p hp
          · rw [if_neg hc2] at hp
            exact hltK y x p hp
    · rw [if_neg hdrop]
      exact ⟨hagree, hltK⟩

theorem lookupPos_isSome_of_mem (pp : List (Nat × Position)) (i : Nat)
    (h : i ∈ pp.map Prod.fst) : (lookupPos pp i).isSome := by
  induction pp with
  | nil => simp at h
  | cons e rest ih =>
    obtain ⟨a, q⟩ := e
    rw [lookupPos]
    by_cases he : i = a
    · rw [if_pos he]
      rfl
    · rw [if_neg he]
      apply ih
      simp only [List.map_cons, List.mem_cons] at h
      rcases h with h | h
      · exact absurd h he
      · exact h

theorem lookupPos_mem (pp : List (Nat × Position)) (i : Nat) (q : Position)
    (h : lookupPos pp i = some q) : (i, q) ∈ pp := by
  induction pp with
  | nil => exact absurd h (by rw [lookupPos]; simp)
  | cons e rest ih =>
    obtain ⟨a, q'⟩ := e
    rw [lookupPos] at h
    by_cases he : i = a
    · rw [if_pos he] at h
      injection h with h1
      exact List.mem_cons.mpr (Or.inl (by rw [he, h1]))
    · rw [if_neg he] at h
      exact List.mem_cons.mpr (Or.inr (ih h))

theorem ppValues_each_bound (blk : Block) (q : Position)
    (h : q ∈ ppValues blk.points_pos) : q.1 ≤ blk.width ∧ q.2 ≤ blk.height := by
  constructor
  · exact le_foldl_max_nat _ _ _ (List.mem_map_of_mem (·.1) h)
  · exact le_foldl_max_nat _ _ _ (List.mem_map_of_mem (·.2) h)

theorem lookupPos_bound (blk : Block) (i : Nat) (lp : Position)
    (h : lookupPos blk.points_pos i = some lp) :
    lp.1 ≤ blk.width ∧ lp.2 ≤ blk.height := by
  apply ppValues_each_bound
  exact List.mem_map_of_mem (·.2) (lookupPos_mem _ _ _ h)

theorem mkPoints_spec (bt : BlockType) :
    ∀ qs g, mkPoints bt g qs =
      ((List.range' g qs.length).map (fun i => ⟨i, bt⟩),
       (List.range' g qs.length).zip qs, g + qs.length) := by
  intro qs
  induction qs with
  | nil => intro g; rfl
  | cons q rest ih =>
    intro g
    rw [mkPoints, ih (g + 1)]
    simp only [Prod.mk.injEq]
    refine ⟨rfl, rfl, by simp only [List.length_cons]; omega⟩

theorem blockNew_spec (bt : BlockType) (g0 : Nat) :
    blockNew bt g0 =
      ({ id := g0, block_type := bt,
         points := (List.range' (g0 + 1) (get_block_points bt).length).map (fun i => ⟨i, bt⟩),
         points_pos := (List.range' (g0 + 1) (get_block_points bt).length).zip
           (get_block_points bt) },
       g0 + 1 + (get_block_points bt).length) := by
  rw [blockNew, mkPoints_spec]

theorem gbp_length (bt : BlockType) : (get_block_points bt).length = 4 := by
  cases bt <;> rfl

theorem blockNew_points_id (bt : BlockType) (g0 : Nat) :
    (blockNew bt g0).1.points.map Point.id = List.range' (g0 + 1) (get_block_points bt).length := by
  rw [blockNew_spec]
  show ((List.range' (g0 + 1) (get_block_points bt).length).map _).map Point.id = _
  rw [List.map_map]
  exact List.map_id _

theorem blockNew_ppValues (bt : BlockType) (g0 : Nat) :
    ppValues (blockNew bt g0).1.points_pos = get_block_points bt := by
  rw [blockNew_spec]
  show ((List.range' (g0 + 1) (get_block_points bt).length).zip (get_block_points bt)).map _ = _
  apply List.map_snd_zip
  simp

theorem blockNew_wf (bt : BlockType) (g0 : Nat) : BlockWF (blockNew bt g0).1 := by
  refine { ne := ?_, nodup := ?_, keys := ?_ }
  · rw [blockNew_spec]
    show ((List.range' (g0 + 1) (get_block_points bt).length).map _) ≠ []
    rw [gbp_length]
    simp [List.range']
  · rw [blockNew_points_id]
    exact List.nodup_range' _ _
  · rw [blockNew_points_id, blockNew_spec]
    show ((List.range' (g0 + 1) (get_block_points bt).length).zip (get_block_points bt)).map
      Prod.fst = _
    apply List.map_fst_zip
    simp

theorem blockNew_width (bt : BlockType) (g0 : Nat) :
    (blockNew bt g0).1.width = ((get_block_points bt).map (·.1)).foldl max 0 := by
  rw [Block.width, blockNew_ppValues]

theorem blockNew_height (bt : BlockType) (g0 : Nat) :
    (blockNew bt g0).1.height = ((get_block_points bt).map (·.2)).foldl max 0 := by
  rw [Block.height, blockNew_ppValues]

theorem blockNew_width_le (bt : BlockType) (g0 : Nat) :
    (blockNew bt g0).1.width ≤ 3 ∧ (blockNew bt g0).1.height ≤ 3 := by
  rw [blockNew_width, blockNew_height]
  cases bt <;> exact ⟨by decide, by decide⟩

theorem blockNew_ids_lt (bt : BlockType) (g0 : Nat) :
    ∀ p ∈ (blockNew bt g0).1.points, g0 < p.id ∧ p.id < (blockNew bt g0).2 := by
  intro p hp
  have hid : p.id ∈ (blockNew bt g0).1.points.map Point.id := List.mem_map_of_mem _ hp
  rw [blockNew_points_id] at hid
  have := List.mem_range'_1.mp hid
  constructor
  · omega
  · show p.id < (blockNew bt g0).2
    rw [blockNew_spec]
    omega

theorem boardGet_empty (y x : Nat) :
    boardGet emptyBoard y x = some none ∨ boardGet emptyBoard y x = none := by
  by_cases hy : y < BOARD_HEIGHT
  · by_cases hx : x < BOARD_WIDTH
    · left
      rw [boardGet, emptyBoard, List.getElem?_replicate, if_pos hy]
      show (List.replicate BOARD_WIDTH (none : Option Point))[x]? = some none
      rw [List.getElem?_replicate, if_pos hx]
    · right
      rw [boardGet, emptyBoard, List.getElem?_replicate, if_pos hy]
      show (List.replicate BOARD_WIDTH (none : Option Point))[x]? = none
      rw [List.getElem?_replicate, if_neg hx]
  · right
    rw [boardGet, emptyBoard, List.getElem?_replicate, if_neg hy]

theorem gameNew_inv (bt : BlockType) : GameInv (Game.new bt) := by
  have hW := blockNew_width_le bt 1
  refine { shape := (⟨rfl, by decide⟩ : BoardShape emptyBoard), wf := blockNew_wf bt 1,
           geomx := ?_, geomy := ?_, agree := ?_, boardLt := ?_,
           activeLt := ?_, activeFresh := ?_ }
  · show 4 + (blockNew bt 1).1.width ≤ 10 - 1
    omega
  · show 0 + (blockNew bt 1).1.height ≤ 24 - 1
    omega
  · show Agree emptyBoard (fun _ => none)
    intro i x y
    constructor
    · rintro ⟨p, hp, hpid⟩
      rcases boardGet_empty y x with h | h <;> rw [h] at hp <;> exact absurd hp (by simp)
    · intro hm
      exact absurd hm (by simp)
  · show ∀ y x p, boardGet emptyBoard y x = some (some p) → p.id < (Game.new bt).genNext
    intro y x p hp
    rcases boardGet_empty y x with h | h <;> rw [h] at hp <;> exact absurd hp (by simp)
  · intro p hp
    exact ((blockNew_ids_lt bt 1) p hp).2
  · intro p hp
    rfl

theorem isBlockCollides_total (b : Board) (hsh : BoardShape b) :
    ∀ pts bp, (∀ q ∈ pts, bp.2 + q.2 < BOARD_HEIGHT ∧ bp.1 + q.1 < BOARD_WIDTH) →
    ∃ c, isBlockCollides b pts bp = .ok c := by
  intro pts
  induction pts with
  | nil => exact fun bp _ => ⟨false, rfl⟩
  | cons q rest ih =>
    intro bp hb
    have hq := hb q (by simp)
    obtain ⟨c, hc⟩ := boardGet_lt_isSome hsh hq.1 hq.2
    rw [isBlockCollides, hc]
    cases c with
    | none => exact ih bp (fun q' hq' => hb q' (by simp [hq']))
    | some p => exact ⟨true, rfl⟩

theorem isBlockCollides_false (b : Board) :
    ∀ pts bp, isBlockCollides b pts bp = .ok false →
    ∀ q ∈ pts, boardGet b (bp.2 + q.2) (bp.1 + q.1) = some none := by
  intro pts
  induction pts with
  | nil =>
    intro bp h q hq
    exact absurd hq (List.not_mem_nil q)
  | cons q0 rest ih =>
    intro bp h q hq
    rw [isBlockCollides] at h
    cases hbg : boardGet b (bp.2 + q0.2) (bp.1 + q0.1) with
    | none =>
      rw [hbg] at h
      exact Except.noConfusion h
    | some c =>
      rw [hbg] at h
      cases c with
      | some p =>
        have h2 : (Except.ok true : Except Err Bool) = .ok false := h
        exact absurd (Except.ok.inj h2) (by simp)
      | none =>
        rcases List.mem_cons.mp hq with he | hmem
        · rw [he]
          exact hbg
        · exact ih bp h q hmem

theorem lockGo_sound (blk : Block) (bp : Position) (K : Nat) :
    ∀ ps b m,
    BoardShape b → Agree b m →
    (∀ p ∈ ps, ∃ lp, blk.get_point_position p.id = some lp ∧
        bp.2 + lp.2 < BOARD_HEIGHT ∧ bp.1 + lp.1 < BOARD_WIDTH) →
    (∀ p ∈ ps, m p.id = none) →
    (∀ y x q, boardGet b y x = some (some q) → q.id < K) →
    (∀ p ∈ ps, p.id < K) →
    (ps.map Point.id).Nodup →
    lockGo blk bp b m ps = .error .assertFail ∨
    ∃ b1 m1, lockGo blk bp b m ps = .ok (b1, m1) ∧
      BoardShape b1 ∧ Agree b1 m1 ∧
      (∀ y x q, boardGet b1 y x = some (some q) → q.id < K) := by
  intro ps
  induction ps with
  | nil =>
    intro b m hsh hagree _ _ hltK _ _
    exact Or.inr ⟨b, m, rfl, hsh, hagree, hltK⟩
  | cons p rest ih =>
    intro b m hsh hagree hlp hfresh hltK hidK hnd
    obtain ⟨lp, hlpe, hy, hx⟩ := hlp p (by simp)
    rw [lockGo, hlpe]
    show (match boardGet b (add_positions bp lp).2 (add_positions bp lp).1 with
        | none => (.error .oob : Except Err (Board × PosMap))
        | some (some _) => .error .assertFail
        | some none => lockGo blk bp
            (setCell b (add_positions bp lp).2 (add_positions bp lp).1 (some p))
            (pmInsert m p.id ((add_positions bp lp).1, (add_positions bp lp).2)) rest)
        = .error .assertFail ∨
      ∃ b1 m1, (match boardGet b (add_positions bp lp).2 (add_positions bp lp).1 with
        | none => (.error .oob : Except Err (Board × PosMap))
        | some (some _) => .error .assertFail
        | some none => lockGo blk bp
            (setCell b (add_positions bp lp).2 (add_positions bp lp).1 (some p))
            (pmInsert m p.id ((add_positions bp lp).1, (add_positions bp lp).2)) rest)
        = .ok (b1, m1) ∧ BoardShape b1 ∧ Agree b1 m1 ∧
        (∀ y x q, boardGet b1 y x = some (some q) → q.id < K)
    obtain ⟨c, hc⟩ := boardGet_lt_isSome hsh
      (show (add_positions bp lp).2 < BOARD_HEIGHT from hy)
      (show (add_positions bp lp).1 < BOARD_WIDTH from hx)
    rw [hc]
    cases c with
    | some q => exact Or.inl rfl
    | none =>
      -- the write: cell was empty, p is fresh.
      have hya : (add_positions bp lp).2 < BOARD_HEIGHT := hy
      have hxa : (add_positions bp lp).1 < BOARD_WIDTH := hx
      have hnotb : ∀ y x q, boardGet b y x = some (some q) → q.id ≠ p.id := by
        intro y x q hbq he
        have := (hagree p.id x y).mp ⟨q, hbq, he⟩
        rw [hfresh p (by simp)] at this
        exact Option.noConfusion this
      have hagree' : Agree (setCell b (add_positions bp lp).2 (add_positions bp lp).1 (some p))
          (pmInsert m p.id ((add_positions bp lp).1, (add_positions bp lp).2)) := by
        intro i x y
        by_cases hip : i = p.id
        · constructor
          · rintro ⟨q, hq, hqid⟩
            by_cases hcell : (add_positions bp lp).2 = y ∧ (add_positions bp lp).1 = x
            · rw [pmInsert, if_pos hip, hcell.1, hcell.2]
            · have hne : y ≠ (add_positions bp lp).2 ∨ x ≠ (add_positions bp lp).1 := by
                tauto
              rw [boardGet_setCell_ne hne] at hq
              exact absurd (hip ▸ hqid) (hnotb y x q hq)
          · intro hm
            rw [pmInsert, if_pos hip] at hm
            injection hm with hm2
            injection hm2 with hx2 hy2
            refine ⟨p, ?_, hip.symm⟩
            rw [← hx2, ← hy2]
            exact boardGet_setCell_self hsh hya hxa
        · rw [pmInsert, if_neg hip]
          constructor
          · rintro ⟨q, hq, hqid⟩
            by_cases hcell : (add_positions bp lp).2 = y ∧ (add_positions bp lp).1 = x
            · rw [← hcell.1, ← hcell.2, boardGet_setCell_self hsh hya hxa] at hq
              injection hq with hq2
              injection hq2 with hq3
              rw [← hq3] at hqid
              exact absurd hqid.symm hip
            · have hne : y ≠ (add_positions bp lp).2 ∨ x ≠ (add_positions bp lp).1 := by
                tauto
              rw [boardGet_setCell_ne hne] at hq
              exact (hagree i x y).mp ⟨q, hq, hqid⟩
          · intro hm
            obtain ⟨q, hq, hqid⟩ := (hagree i x y).mpr hm
            by_cases hcell : (add_positions bp lp).2 = y ∧ (add_positions bp lp).1 = x
            · rw [← hcell.1, ← hcell.2, hc] at hq
              exact absurd hq (by simp)
            · have hne : y ≠ (add_positions bp lp).2 ∨ x ≠ (add_positions bp lp).1 := by
                tauto
              refine ⟨q, ?_, hqid⟩
              rw [boardGet_setCell_ne hne]
              exact hq
      have hltK' : ∀ y x q, boardGet (setCell b (add_positions bp lp).2
          (add_positions bp lp).1 (some p)) y x = some (some q) → q.id < K := by
        intro y x q hq
        by_cases hcell : (add_positions bp lp).2 = y ∧ (add_positions bp lp).1 = x
        · rw [← hcell.1, ← hcell.2, boardGet_setCell_self hsh hya hxa] at hq
          injection hq with hq2
          injection hq2 with hq3
          rw [← hq3]
          exact hidK p (by simp)
        · have hne : y ≠ (add_positions bp lp).2 ∨ x ≠ (add_positions bp lp).1 := by
            tauto
          rw [boardGet_setCell_ne hne] at hq
          exact hltK y x q hq
      have hfresh' : ∀ p' ∈ rest, pmInsert m p.id
          ((add_positions bp lp).1, (add_positions bp lp).2) p'.id = none := by
        intro p' hp'
        have hne : p'.id ≠ p.id := by
          have := hnd
          rw [List.map_cons, List.nodup_cons] at this
          intro he
          exact this.1 (he ▸ List.mem_map_of_mem Point.id hp')
        rw [pmInsert, if_neg hne]
        exact hfresh p' (by simp [hp'])
      exact ih _ _ (setCell_shape hsh) hagree'
        (fun p' hp' => hlp p' (by simp [hp'])) hfresh' hltK'
        (fun p' hp' => hidK p' (by simp [hp']))
        (by rw [List.map_cons, List.nodup_cons] at hnd; exact hnd.2)

theorem width_mk_le (blk : Block) (l : List (Nat × Position)) (c : Nat)
    (h : ∀ q ∈ ppValues l, q.1 ≤ c) :
    Block.width { blk with points_pos := l } ≤ c := by
  rw [Block.width]
  show ((ppValues l).map (·.1)).foldl max 0 ≤ c
  apply foldl_max_le_nat _ _ _ (Nat.zero_le c)
  intro a ha
  obtain ⟨q, hq, he⟩ := List.mem_map.mp ha
  rw [← he]
  exact h q hq

theorem height_mk_le (blk : Block) (l : List (Nat × Position)) (c : Nat)
    (h : ∀ q ∈ ppValues l, q.2 ≤ c) :
    Block.height { blk with points_pos := l } ≤ c := by
  rw [Block.height]
  show ((ppValues l).map (·.2)).foldl max 0 ≤ c
  apply foldl_max_le_nat _ _ _ (Nat.zero_le c)
  intro a ha
  obtain ⟨q, hq, he⟩ := List.mem_map.mp ha
  rw [← he]
  exact h q hq

theorem ppValues_zip_map (pts : List Point) (norm : List Position)
    (h : norm.length ≤ pts.length) :
    ppValues ((pts.zip norm).map (fun pq => (pq.1.id, pq.2))) = norm := by
  show ((pts.zip norm).map (fun pq => (pq.1.id, pq.2))).map (·.2) = norm
  rw [List.map_map]
  exact List.map_snd_zip pts norm h

theorem keys_zip_map (pts : List Point) (norm : List Position)
    (h : pts.length ≤ norm.length) :
    ((pts.zip norm).map (fun pq => (pq.1.id, pq.2))).map Prod.fst = pts.map Point.id := by
  rw [List.map_map]
  have he : (Prod.fst ∘ fun pq : Point × Position => (pq.1.id, pq.2)) = Point.id ∘ Prod.fst :=
    rfl
  rw [he, ← List.map_map, List.map_fst_zip pts norm h]

theorem rotate_block_sound (blk : Block) (bp : Position)
    (fits : List Position → Position → Except Err Bool)
    (hwf : BlockWF blk)
    (hfits : ∀ pts p, (∀ q ∈ pts, p.2 + q.2 < BOARD_HEIGHT ∧ p.1 + q.1 < BOARD_WIDTH) →
      ∃ c, fits pts p = .ok c) :
    rotate_block blk bp fits = .ok none ∨
    ∃ pp2 nx ny, rotate_block blk bp fits = .ok (some (pp2, (nx, ny))) ∧
      pp2.map Prod.fst = blk.points.map Point.id ∧
      nx + Block.width { blk with points_pos := pp2 } ≤ BOARD_WIDTH - 1 ∧
      ny + Block.height { blk with points_pos := pp2 } ≤ BOARD_HEIGHT - 1 := by
  have hlook : ∀ p ∈ blk.points, (lookupPos blk.points_pos p.id).isSome := by
    intro p hp
    apply lookupPos_isSome_of_mem
    rw [hwf.keys]
    exact List.mem_map_of_mem Point.id hp
  simp only [rotate_block]
  rw [rotPointsE_total _ _ _ _ hlook]
  generalize hL : (blk.points.map (fun p => rotFormula ((blk.width / 2 : Nat) : Int)
      ((blk.height / 2 : Nat) : Int) ((lookupPos blk.points_pos p.id).getD (0, 0)))) = L
  have hbnd : ∀ r ∈ L,
      ((blk.width / 2 : Nat) : Int) + ((blk.height / 2 : Nat) : Int) - blk.height ≤ r.1 ∧
      r.1 ≤ ((blk.width / 2 : Nat) : Int) + ((blk.height / 2 : Nat) : Int) ∧
      ((blk.height / 2 : Nat) : Int) - ((blk.width / 2 : Nat) : Int) ≤ r.2 ∧
      r.2 ≤ (blk.width : Int) - ((blk.width / 2 : Nat) : Int)
        + ((blk.height / 2 : Nat) : Int) := by
    intro r hr
    rw [← hL] at hr
    obtain ⟨p, hp, hpe⟩ := List.mem_map.mp hr
    obtain ⟨lp, hlp⟩ := Option.isSome_iff_exists.mp (hlook p hp)
    obtain ⟨hlpw, hlph⟩ := lookupPos_bound blk p.id lp hlp
    have h1 : (lp.1 : Int) ≤ (blk.width : Int) := by exact_mod_cast hlpw
    have h2 : (lp.2 : Int) ≤ (blk.height : Int) := by exact_mod_cast hlph
    rw [← hpe, hlp]
    simp only [Option.getD_some, rotFormula]
    refine ⟨?_, ?_, ?_, ?_⟩ <;> omega
  cases L with
  | nil => exact absurd (List.map_eq_nil_iff.mp hL) hwf.ne
  | cons r0 rtail =>
    have hlen : blk.points.length = (r0 :: rtail).length := by
      have hc := congrArg List.length hL
      rwa [List.length_map] at hc
    have hr0 := hbnd r0 (by simp)
    have hmnx_lb : ((blk.width / 2 : Nat) : Int) + ((blk.height / 2 : Nat) : Int) - blk.height
        ≤ List.foldl min r0.1 (List.map (fun x => x.1) rtail) := by
      apply le_foldl_min_int
      · exact hr0.1
      · intro a ha
        obtain ⟨r, hrr, hre⟩ := List.mem_map.mp ha
        rw [← hre]
        exact (hbnd r (by simp [hrr])).1
    have hmnx_ub : List.foldl min r0.1 (List.map (fun x => x.1) rtail)
        ≤ ((blk.width / 2 : Nat) : Int) + ((blk.height / 2 : Nat) : Int) :=
      le_trans (foldl_min_init_le _ _) hr0.2.1
    have hmny_lb : ((blk.height / 2 : Nat) : Int) - ((blk.width / 2 : Nat) : Int)
        ≤ List.foldl min r0.2 (List.map (fun x => x.2) rtail) := by
      apply le_foldl_min_int
      · exact hr0.2.2.1
      · intro a ha
        obtain ⟨r, hrr, hre⟩ := List.mem_map.mp ha
        rw [← hre]
        exact (hbnd r (by simp [hrr])).2.2.1
    have hmny_ub : List.foldl min r0.2 (List.map (fun x => x.2) rtail)
        ≤ (blk.width : Int) - ((blk.width / 2 : Nat) : Int) + ((blk.height / 2 : Nat) : Int) :=
      le_trans (foldl_min_init_le _ _) hr0.2.2.2
    by_cases hcond : ((bp.1 : Int) + List.foldl min r0.1 (List.map (fun x => x.1) rtail) < 0
        ∨ BOARD_WIDTH ≤ ((bp.1 : Int)
            + List.foldl min r0.1 (List.map (fun x => x.1) rtail)).toNat + blk.height
        ∨ (bp.2 : Int) + List.foldl min r0.2 (List.map (fun x => x.2) rtail) < 0
        ∨ BOARD_HEIGHT ≤ ((bp.2 : Int)
            + List.foldl min r0.2 (List.map (fun x => x.2) rtail)).toNat + blk.width)
    · left
      simp only [hcond, ite_true]
    · have hcond' := hcond
      push_neg at hcond'
      obtain ⟨hc1, hc2, hc3, hc4⟩ := hcond'
      have hnormb : ∀ q ∈ List.map (fun r =>
            ((r.1 - List.foldl min r0.1 (List.map (fun x => x.1) rtail)).toNat,
             (r.2 - List.foldl min r0.2 (List.map (fun x => x.2) rtail)).toNat)) (r0 :: rtail),
          q.1 ≤ blk.height ∧ q.2 ≤ blk.width := by
        intro q hq
        obtain ⟨r, hrr, hre⟩ := List.mem_map.mp hq
        obtain ⟨hb1, hb2, hb3, hb4⟩ := hbnd r hrr
        rw [← hre]
        exact ⟨Int.toNat_le.mpr (by omega), Int.toNat_le.mpr (by omega)⟩
      have hinb : ∀ q ∈ List.map (fun r =>
            ((r.1 - List.foldl min r0.1 (List.map (fun x => x.1) rtail)).toNat,
             (r.2 - List.foldl min r0.2 (List.map (fun x => x.2) rtail)).toNat)) (r0 :: rtail),
          (((bp.1 : Int) + List.foldl min r0.1 (List.map (fun x => x.1) rtail)).toNat,
           ((bp.2 : Int) + List.foldl min r0.2 (List.map (fun x => x.2) rtail)).toNat).2 + q.2
            < BOARD_HEIGHT ∧
          (((bp.1 : Int) + List.foldl min r0.1 (List.map (fun x => x.1) rtail)).toNat,
           ((bp.2 : Int) + List.foldl min r0.2 (List.map (fun x => x.2) rtail)).toNat).1 + q.1
            < BOARD_WIDTH := by
        intro q hq
        obtain ⟨hq1, hq2⟩ := hnormb q hq
        constructor
        · show ((bp.2 : Int)
              + List.foldl min r0.2 (List.map (fun x => x.2) rtail)).toNat + q.2 < BOARD_HEIGHT
          omega
        · show ((bp.1 : Int)
              + List.foldl min r0.1 (List.map (fun x => x.1) rtail)).toNat + q.1 < BOARD_WIDTH
          omega
      obtain ⟨c, hcf⟩ := hfits _ _ hinb
      simp only [hcond, ite_false]
      rw [hcf]
      cases c with
      | false =>
        left
        rfl
      | true =>
        right
        refine ⟨_, _, _, rfl, ?_, ?_, ?_⟩
        · apply keys_zip_map
          rw [List.length_map]
          omega
        · refine le_trans (Nat.add_le_add_left (width_mk_le blk _ blk.height ?_) _) (by omega)
          intro q hq
          rw [ppValues_zip_map _ _ (by rw [List.length_map]; omega)] at hq
          exact (hnormb q hq).1
        · refine le_trans (Nat.add_le_add_left (height_mk_le blk _ blk.width ?_) _) (by omega)
          intro q hq
          rw [ppValues_zip_map _ _ (by rw [List.length_map]; omega)] at hq
          exact (hnormb q hq).2

theorem tickInner_eq (g : Game) (a : Acts) (bt : BlockType) :
    tickInner g a bt = tickCompose (tickStep1 g a) (tickStep2 g a) (tickStep3 g a)
      (tickStep4 g a bt) := rfl

theorem tickCompose_ok (bp1 : Position) (s2 : Position → Except Err Position)
    (s3 : Position → Except Err (Block × Position))
    (s4 : Block → Position → Except Err (Game × List TickChange)) :
    tickCompose (.ok bp1) s2 s3 s4 = tickCompose2 (s2 bp1) s3 s4 := rfl

theorem tickCompose2_ok (bp2 : Position)
    (s3 : Position → Except Err (Block × Position))
    (s4 : Block → Position → Except Err (Game × List TickChange)) :
    tickCompose2 (.ok bp2) s3 s4 = tickCompose3 (s3 bp2) s4 := rfl

theorem tickCompose3_ok (blk3 : Block) (bp3 : Position)
    (s4 : Block → Position → Except Err (Game × List TickChange)) :
    tickCompose3 (.ok (blk3, bp3)) s4 = s4 blk3 bp3 := rfl

theorem tickStep1_sound (g : Game) (a : Acts) (inv : GameInv g) :
    ∃ bp1, tickStep1 g a = .ok bp1 ∧
      bp1.1 + g.active_block.width ≤ BOARD_WIDTH - 1 ∧
      bp1.2 = g.active_block_pos.2 := by
  have hW : BOARD_WIDTH = 10 := rfl
  have hH : BOARD_HEIGHT = 24 := rfl
  have hgx := inv.geomx
  have hgy := inv.geomy
  rw [tickStep1]
  by_cases h1 : a.move_left = true ∧ 0 < g.active_block_pos.1
  · rw [if_pos h1]
    obtain ⟨c, hc⟩ := isBlockCollides_total g.board inv.shape
      (ppValues g.active_block.points_pos)
      (g.active_block_pos.1 - 1, g.active_block_pos.2) (by
        intro q hq
        obtain ⟨hq1, hq2⟩ := ppValues_each_bound g.active_block q hq
        constructor
        · show g.active_block_pos.2 + q.2 < BOARD_HEIGHT
          omega
        · show g.active_block_pos.1 - 1 + q.1 < BOARD_WIDTH
          omega)
    rw [hc]
    cases c with
    | true => exact ⟨g.active_block_pos, rfl, inv.geomx, rfl⟩
    | false =>
      refine ⟨(g.active_block_pos.1 - 1, g.active_block_pos.2), rfl, ?_, rfl⟩
      show g.active_block_pos.1 - 1 + g.active_block.width ≤ BOARD_WIDTH - 1
      omega
  · rw [if_neg h1]
    exact ⟨g.active_block_pos, rfl, inv.geomx, rfl⟩

theorem tickStep2_sound (g : Game) (a : Acts) (bp1 : Position) (inv : GameInv g)
    (h1x : bp1.1 + g.active_block.width ≤ BOARD_WIDTH - 1)
    (h1y : bp1.2 = g.active_block_pos.2) :
    ∃ bp2, tickStep2 g a bp1 = .ok bp2 ∧
      bp2.1 + g.active_block.width ≤ BOARD_WIDTH - 1 ∧
      bp2.2 = g.active_block_pos.2 := by
  have hW : BOARD_WIDTH = 10 := rfl
  have hH : BOARD_HEIGHT = 24 := rfl
  have hgy := inv.geomy
  rw [tickStep2]
  by_cases h2 : a.move_right = true ∧ bp1.1 + g.active_block.width < BOARD_WIDTH - 1
  · rw [if_pos h2]
    have h2b := h2.2
    obtain ⟨c, hc⟩ := isBlockCollides_total g.board inv.shape
      (ppValues g.active_block.points_pos) (bp1.1 + 1, bp1.2) (by
        intro q hq
        obtain ⟨hq1, hq2⟩ := ppValues_each_bound g.active_block q hq
        constructor
        · show bp1.2 + q.2 < BOARD_HEIGHT
          omega
        · show bp1.1 + 1 + q.1 < BOARD_WIDTH
          omega)
    rw [hc]
    cases c with
    | true => exact ⟨bp1, rfl, h1x, h1y⟩
    | false =>
      refine ⟨(bp1.1 + 1, bp1.2), rfl, ?_, h1y⟩
      show bp1.1 + 1 + g.active_block.width ≤ BOARD_WIDTH - 1
      omega
  · rw [if_neg h2]
    exact ⟨bp1, rfl, h1x, h1y⟩

theorem tickStep3_sound (g : Game) (a : Acts) (bp2 : Position) (inv : GameInv g)
    (h2x : bp2.1 + g.active_block.width ≤ BOARD_WIDTH - 1)
    (h2y : bp2.2 + g.active_block.height ≤ BOARD_HEIGHT - 1) :
    ∃ blk3 bp3, tickStep3 g a bp2 = .ok (blk3, bp3) ∧
      blk3.points = g.active_block.points ∧
      BlockWF blk3 ∧
      bp3.1 + blk3.width ≤ BOARD_WIDTH - 1 ∧
      bp3.2 + blk3.height ≤ BOARD_HEIGHT - 1 := by
  rw [tickStep3]
  by_cases hr : a.rotate = true
  · rw [if_pos hr]
    have hfits : ∀ pts p,
        (∀ q ∈ pts, p.2 + q.2 < BOARD_HEIGHT ∧ p.1 + q.1 < BOARD_WIDTH) →
        ∃ c, (fun pts p =>
          match isBlockCollides g.board pts p with
          | .error e => (.error e : Except Err Bool)
          | .ok c => .ok (!c)) pts p = .ok c := by
      intro pts p hb
      obtain ⟨c, hc⟩ := isBlockCollides_total g.board inv.shape pts p hb
      refine ⟨!c, ?_⟩
      show (match isBlockCollides g.board pts p with
        | .error e => (.error e : Except Err Bool)
        | .ok c => .ok (!c)) = .ok (!c)
      rw [hc]
    rcases rotate_block_sound g.active_block bp2 _ inv.wf hfits with
      hnone | ⟨pp2, nx, ny, hsome, hkeys, hgx2, hgy2⟩
    · rw [hnone]
      exact ⟨g.active_block, bp2, rfl, rfl, inv.wf, h2x, h2y⟩
    · rw [hsome]
      refine ⟨{ g.active_block with points_pos := pp2 }, (nx, ny), rfl, rfl,
        { ne := inv.wf.ne, nodup := inv.wf.nodup, keys := hkeys }, hgx2, hgy2⟩
  · rw [if_neg hr]
    exact ⟨g.active_block, bp2, rfl, rfl, inv.wf, h2x, h2y⟩

theorem rInvA_step (K : Nat) (b0 : Board) (rows : List Nat) (n : Nat) (s : RRState)
    (hsub : rows.Sublist (List.range BOARD_HEIGHT))
    (hfill : ∀ r ∈ rows, rowFilled b0 r = true)
    (hsh0 : BoardShape b0)
    (hn : n < BOARD_HEIGHT)
    (inv : RInvA K b0 rows (n + 1) s) :
    RInvA K b0 rows n (rowStep n s) := by
  have hbd : ∀ r ∈ rows, r < BOARD_HEIGHT := fun r hr =>
    List.mem_range.mp (hsub.subset hr)
  have hp : rows.Pairwise (· < ·) :=
    List.Pairwise.sublist hsub (List.pairwise_lt_range BOARD_HEIGHT)
  have hnd_rows : rows.Nodup := hp.imp (fun h => Nat.ne_of_lt h)
  have hempr : 0 < s.drop → n + s.drop < BOARD_HEIGHT ∧
      ∀ x, x < BOARD_WIDTH → boardGet s.board (n + s.drop) x = some none := by
    intro hdrop
    have hlen : (rows.filter (fun r => decide (n + 1 ≤ r))).length
        ≤ BOARD_HEIGHT - (n + 1) := by
      apply nodup_length_le _ (n + 1) BOARD_HEIGHT (List.Nodup.filter _ hnd_rows)
      intro r hr
      have hmr := List.mem_of_mem_filter hr
      have hpr := List.of_mem_filter hr
      simp only [decide_eq_true_eq] at hpr
      exact ⟨hpr, hbd r hmr⟩
    have hde := inv.base.drop_eq
    have hydlt : n + s.drop < BOARD_HEIGHT := by omega
    exact ⟨hydlt, fun x hx => inv.base.empt (n + s.drop) (by omega) (by omega) x hx⟩
  have h2 := rowStep_agree K n s inv.base.shape hn hempr inv.agree inv.ltK
  exact { base := rInv_step b0 rows n s hsub hfill hsh0 hn inv.base,
          agree := h2.1, ltK := h2.2 }

theorem rInvA_run (K : Nat) (b0 : Board) (rows : List Nat)
    (hsub : rows.Sublist (List.range BOARD_HEIGHT))
    (hfill : ∀ r ∈ rows, rowFilled b0 r = true)
    (hsh0 : BoardShape b0) :
    ∀ n, n ≤ BOARD_HEIGHT → ∀ s, RInvA K b0 rows n s →
      RInvA K b0 rows 0 (removeRowsGo n s) := by
  intro n
  induction n with
  | zero =>
    intro _ s h
    exact h
  | succ n ih =>
    intro hn s h
    rw [removeRowsGo]
    exact ih (by omega) (rowStep n s) (rInvA_step K b0 rows n s hsub hfill hsh0 (by omega) h)

theorem removeRows_sound (K : Nat) (b : Board) (m : PosMap) (hsh : BoardShape b)
    (hagree : Agree b m)
    (hltK : ∀ y x q, boardGet b y x = some (some q) → q.id < K) :
    BoardShape (removeRows b m (findFilledRows b)).board ∧
    Agree (removeRows b m (findFilledRows b)).board (removeRows b m (findFilledRows b)).pos ∧
    (∀ y x q, boardGet (removeRows b m (findFilledRows b)).board y x = some (some q) →
      q.id < K) := by
  have hsub : (findFilledRows b).Sublist (List.range BOARD_HEIGHT) :=
    List.filter_sublist _
  have hfill : ∀ r ∈ findFilledRows b, rowFilled b r = true :=
    fun r hr => List.of_mem_filter hr
  have hbd : ∀ r ∈ findFilledRows b, r < BOARD_HEIGHT :=
    fun r hr => List.mem_range.mp (hsub.subset hr)
  have h0 : RInvA K b (findFilledRows b) BOARD_HEIGHT
      { board := b, pos := m, removed := [], rem := (findFilledRows b).reverse, drop := 0 } :=
    { base := rInv_init b m (findFilledRows b) hbd hsh, agree := hagree, ltK := hltK }
  have hrun := rInvA_run K b (findFilledRows b) hsub hfill hsh BOARD_HEIGHT (le_refl _) _ h0
  rw [removeRows]
  exact ⟨hrun.base.shape, hrun.agree, hrun.ltK⟩

theorem tickStep4_sound (g : Game) (a : Acts) (bt : BlockType) (blk3 : Block) (bp3 : Position)
    (inv : GameInv g)
    (hpts : blk3.points = g.active_block.points)
    (hwf : BlockWF blk3)
    (hgx : bp3.1 + blk3.width ≤ BOARD_WIDTH - 1)
    (hgy : bp3.2 + blk3.height ≤ BOARD_HEIGHT - 1) :
    tickStep4 g a bt blk3 bp3 = .error .assertFail ∨
    ∃ g2 evs, tickStep4 g a bt blk3 bp3 = .ok (g2, evs) ∧ GameInv g2 := by
  have hW : BOARD_WIDTH = 10 := rfl
  have hH : BOARD_HEIGHT = 24 := rfl
  -- shared facts for the two lock branches.
  have hlkB : ∀ p ∈ blk3.points, ∃ lp, blk3.get_point_position p.id = some lp ∧
      bp3.2 + lp.2 < BOARD_HEIGHT ∧ bp3.1 + lp.1 < BOARD_WIDTH := by
    intro p hp
    have hsome : (lookupPos blk3.points_pos p.id).isSome := by
      apply lookupPos_isSome_of_mem
      rw [hwf.keys]
      exact List.mem_map_of_mem Point.id hp
    obtain ⟨lp, hlp⟩ := Option.isSome_iff_exists.mp hsome
    obtain ⟨hb1, hb2⟩ := lookupPos_bound blk3 p.id lp hlp
    exact ⟨lp, hlp, by omega, by omega⟩
  have hfreshB : ∀ p ∈ blk3.points, g.points_pos p.id = none := by
    intro p hp
    exact inv.activeFresh p (hpts ▸ hp)
  have hidKB : ∀ p ∈ blk3.points, p.id < g.genNext := by
    intro p hp
    exact inv.activeLt p (hpts ▸ hp)
  have hgenlt : g.genNext < (blockNew bt g.genNext).2 := by
    rw [blockNew_spec]
    have := gbp_length bt
    omega
  have hWd := blockNew_width_le bt g.genNext
  -- the common lock continuation.
  have hlock : (match lockGo blk3 bp3 g.board g.points_pos blk3.points with
      | .error e => (.error e : Except Err (Game × List TickChange))
      | .ok bm =>
        .ok ({ g with
                genNext := (blockNew bt g.genNext).2,
                board := (removeRows bm.1 bm.2 (findFilledRows bm.1)).board,
                points_pos := (removeRows bm.1 bm.2 (findFilledRows bm.1)).pos,
                active_block := (blockNew bt g.genNext).1,
                active_block_pos := (4, 0),
                drop_timer := (tickAndRestartIfElapsed g.drop_timer
                  (if a.fast_drop = true then fast_drop_speed else drop_speed)).2 },
             TickChange.blockLocked ::
               (removeRows bm.1 bm.2 (findFilledRows bm.1)).removed.map
                 (fun p : Point => TickChange.pointRemoved p.id)
               ++ [TickChange.newBlock]))
      = .error .assertFail ∨
      ∃ g2 evs, (match lockGo blk3 bp3 g.board g.points_pos blk3.points with
      | .error e => (.error e : Except Err (Game × List TickChange))
      | .ok bm =>
        .ok ({ g with
                genNext := (blockNew bt g.genNext).2,
                board := (removeRows bm.1 bm.2 (findFilledRows bm.1)).board,
                points_pos := (removeRows bm.1 bm.2 (findFilledRows bm.1)).pos,
                active_block := (blockNew bt g.genNext).1,
                active_block_pos := (4, 0),
                drop_timer := (tickAndRestartIfElapsed g.drop_timer
                  (if a.fast_drop = true then fast_drop_speed else drop_speed)).2 },
             TickChange.blockLocked ::
               (removeRows bm.1 bm.2 (findFilledRows bm.1)).removed.map
                 (fun p : Point => TickChange.pointRemoved p.id)
               ++ [TickChange.newBlock]))
        = .ok (g2, evs) ∧ GameInv g2 := by
    rcases lockGo_sound blk3 bp3 g.genNext blk3.points g.board g.points_pos
        inv.shape inv.agree hlkB hfreshB inv.boardLt hidKB hwf.nodup with
      herr | ⟨b1, m1, hok, hshb, hagr, hltk⟩
    · rw [herr]
      exact Or.inl rfl
    · rw [hok]
      obtain ⟨hsh2, hagr2, hltk2⟩ := removeRows_sound g.genNext b1 m1 hshb hagr hltk
      right
      refine ⟨_, _, rfl, ?_⟩
      refine { shape := hsh2, wf := blockNew_wf bt g.genNext,
               geomx := ?_, geomy := ?_, agree := hagr2, boardLt := ?_,
               activeLt := ?_, activeFresh := ?_ }
      · show 4 + (blockNew bt g.genNext).1.width ≤ BOARD_WIDTH - 1
        omega
      · show 0 + (blockNew bt g.genNext).1.height ≤ BOARD_HEIGHT - 1
        omega
      · intro y x q hq
        have := hltk2 y x q hq
        show q.id < (blockNew bt g.genNext).2
        omega
      · intro p hp
        have := (blockNew_ids_lt bt g.genNext p hp).2
        exact this
      · intro p hp
        have hgt := (blockNew_ids_lt bt g.genNext p hp).1
        cases hmp : (removeRows b1 m1 (findFilledRows b1)).pos p.id with
        | none => exact hmp
        | some q =>
          obtain ⟨p', hb', hid'⟩ := (hagr2 p.id q.1 q.2).mpr (by rw [hmp])
          have := hltk2 _ _ _ hb'
          omega
  simp only [tickStep4]
  by_cases htr : (tickAndRestartIfElapsed g.drop_timer
      (if a.fast_drop = true then fast_drop_speed else drop_speed)).1 = true
  · rw [if_pos htr]
    by_cases hedge : bp3.2 + blk3.height = BOARD_HEIGHT - 1
    · rw [if_pos hedge]
      exact hlock
    · rw [if_neg hedge]
      obtain ⟨c, hcp⟩ := isBlockCollides_total g.board inv.shape
        (ppValues blk3.points_pos) (bp3.1, bp3.2 + 1) (by
          intro q hq
          obtain ⟨hq1, hq2⟩ := ppValues_each_bound blk3 q hq
          constructor
          · show bp3.2 + 1 + q.2 < BOARD_HEIGHT
            omega
          · show bp3.1 + q.1 < BOARD_WIDTH
            omega)
      rw [hcp]
      cases c with
      | true => exact hlock
      | false =>
        right
        refine ⟨_, _, rfl, ?_⟩
        refine { shape := inv.shape, wf := hwf, geomx := hgx, geomy := ?_,
                 agree := inv.agree, boardLt := inv.boardLt,
                 activeLt := hidKB, activeFresh := hfreshB }
        show bp3.2 + 1 + blk3.height ≤ BOARD_HEIGHT - 1
        omega
  · rw [if_neg htr]
    right
    refine ⟨_, _, rfl, ?_⟩
    exact { shape := inv.shape, wf := hwf, geomx := hgx, geomy := hgy,
            agree := inv.agree, boardLt := inv.boardLt,
            activeLt := hidKB, activeFresh := hfreshB }

theorem tickInner_sound (g : Game) (a : Acts) (bt : BlockType) (inv : GameInv g) :
    tickInner g a bt = .error .assertFail ∨
    ∃ g2 evs, tickInner g a bt = .ok (g2, evs) ∧ GameInv g2 := by
  obtain ⟨bp1, h1, h1x, h1y⟩ := tickStep1_sound g a inv
  obtain ⟨bp2, h2, h2x, h2y⟩ := tickStep2_sound g a bp1 inv h1x h1y
  obtain ⟨blk3, bp3, h3, h3p, h3wf, h3x, h3y⟩ := tickStep3_sound g a bp2 inv h2x
    (by rw [h2y]; exact inv.geomy)
  have heq : tickInner g a bt = tickStep4 g a bt blk3 bp3 := by
    rw [tickInner_eq, h1, tickCompose_ok, h2, tickCompose2_ok, h3, tickCompose3_ok]
  rw [heq]
  exact tickStep4_sound g a bt blk3 bp3 inv h3p h3wf h3x h3y

theorem tick_sound (g : Game) (raw : RawInput) (bt : BlockType) (inv : GameInv g) :
    tick g raw bt = .error .assertFail ∨
    ∃ g' evs, tick g raw bt = .ok (g', evs) ∧ GameInv g' := by
  rcases tickInner_sound g (actsOf (smartInputTick g.input raw)) bt inv with
    herr | ⟨g2, evs, hok, hinv⟩
  · left
    show (match tickInner g (actsOf (smartInputTick g.input raw)) bt with
      | .error e => (.error e : Except Err (Game × List TickChange))
      | .ok r => .ok ({ r.1 with input := smartInputTick g.input raw }, r.2))
      = .error .assertFail
    rw [herr]
  · right
    refine ⟨{ g2 with input := smartInputTick g.input raw }, evs, ?_, ?_⟩
    · show (match tickInner g (actsOf (smartInputTick g.input raw)) bt with
        | .error e => (.error e : Except Err (Game × List TickChange))
        | .ok r => .ok ({ r.1 with input := smartInputTick g.input raw }, r.2))
        = .ok ({ g2 with input := smartInputTick g.input raw }, evs)
      rw [hok]
    · exact { shape := hinv.shape, wf := hinv.wf, geomx := hinv.geomx, geomy := hinv.geomy,
              agree := hinv.agree, boardLt := hinv.boardLt, activeLt := hinv.activeLt,
              activeFresh := hinv.activeFresh }

theorem reachable_inv {g : Game} (h : Reachable g) : GameInv g := by
  induction h with
  | init bt => exact gameNew_inv bt
  | step hr htick ih =>
    rcases tick_sound _ _ _ ih with herr | ⟨g2, evs2, hok, hinv⟩
    · rw [htick] at herr
      exact Except.noConfusion herr
    · rw [htick] at hok
      injection hok with h1
      injection h1 with hg he
      rw [← hg] at hinv
      exact hinv

/-- C1: on every reachable game state, the grid and the locked-points
map agree: a point with id i is stored in the grid cell (x, y) iff
points_pos maps i to (x, y); this correspondence is preserved by every
tick, including locking, row clearing and compaction. -/
theorem c1_grid_map_agree (g : Game) (hg : Reachable g) :
    Agree g.board g.points_pos :=
  (reachable_inv hg).agree

theorem c1_witness :
    Reachable (Game.new BlockType.O) ∧
    Agree (Game.new BlockType.O).board (Game.new BlockType.O).points_pos :=
  ⟨Reachable.init BlockType.O,
   c1_grid_map_agree (Game.new BlockType.O) (Reachable.init BlockType.O)⟩

/-- C10: on every reachable game state, no board access performed by a
tick is out of bounds: in the total embedding, where an out-of-bounds
index surfaces as the error `Err.oob`, tick never returns that error,
for any input and any spawned piece. -/
theorem c10_no_oob (g : Game) (hg : Reachable g) (raw : RawInput) (bt : BlockType) :
    tick g raw bt ≠ .error .oob := by
  intro hoob
  rcases tick_sound g raw bt (reachable_inv hg) with herr | ⟨g', evs, hok, _⟩
  · rw [hoob] at herr
    injection herr with h1
    exact Err.noConfusion h1
  · rw [hoob] at hok
    exact Except.noConfusion hok

theorem c10_witness :
    Reachable (Game.new BlockType.T) ∧
    tick (Game.new BlockType.T) rawNone BlockType.T ≠ .error .oob :=
  ⟨Reachable.init BlockType.T,
   c10_no_oob (Game.new BlockType.T) (Reachable.init BlockType.T) rawNone BlockType.T⟩
